import Mathlib

/-!
Verification of the loc-os kernel (32-bit RISC-V teaching OS).

This file gives a shallow embedding, in Lean 4, of the parts of the kernel
that the specification's claims are about:

* the cooperative scheduler (`src/kernel/src/proc.c`: `create_process`,
  `init_idle_process`, `yield`),
* the two-level Sv32 page-table code (`src/kernel/src/vm.c`: `map_page`,
  together with the bump allocator `alloc_pages` from `alloc.c`),
* the archive filesystem (`src/kernel/src/fs.c`: `fs_lookup`, `init_fs`,
  `flush_fs`, with the string helpers from `common/src/str.c` and `atoi`
  from `common/src/lib.c`),
* the syscall dispatcher's READFILE/WRITEFILE branch
  (`src/kernel/src/trampoline.c`: `handle_syscall`),
* the virtio block driver (`src/kernel/src/virtio_disk.c`:
  `read_write_disk`, `virtq_kick`).

Machine integers are modelled as `Nat` (unsigned) or `Int` (signed), with
explicit `% 2 ^ 32` conversions where the C code converts between signed
and unsigned types.  Byte buffers are `List Nat`; C strings are the bytes
of a buffer up to the first NUL.  The on-"disk" buffer `disk[]` is a
function `Nat → Nat` whose writes outside the C array bound
`DISK_MAX_SIZE` are dropped; all executions appearing in the theorems
below stay inside that bound, where the model agrees with the C code
exactly.
-/

set_option maxHeartbeats 2000000
set_option maxRecDepth 10000

namespace LocOs

/-! ### Constants from the headers -/

/-- Maximum number of process slots, `PROCS_MAX` in `proc.h`. -/
abbrev PROCS_MAX : Nat := 8

/-- Maximum number of file slots, `FILES_MAX` in `fs.h`. -/
abbrev FILES_MAX : Nat := 2

/-- Sector size of the block device, `SECTOR_SIZE` in `virtio_disk.h`. -/
abbrev SECTOR_SIZE : Nat := 512

/-- Page size, `PAGE_SIZE`. -/
abbrev PAGE_SIZE : Nat := 4096

/-- Physical base address of the virtio block device registers,
`VIRTIO_BLK_PADDR` in `virtio_disk.h`. -/
def VIRTIO_BLK_PADDR : Nat := 0x10001000

/-- Base virtual address of the user image, `USER_BASE`. -/
def USER_BASE : Nat := 0x01000000

/-- Size in bytes of `struct file` from `fs.h` (`bool` is `int` per
`types.h`, so the layout is 4 + 100 + 1024 bytes, padded to 4-byte
alignment, plus a 4-byte `size_t`). -/
def sizeofFile : Nat := 1132

/-- Round `v` up to a multiple of `a`; `align_up` from `arg.h`
(`__builtin_align_up`, `a` a power of two). -/
def alignUp (v a : Nat) : Nat := (v + a - 1) / a * a

/-- Size of the in-memory disk buffer `disk[]`:
`align_up(sizeof(struct file) * FILES_MAX, SECTOR_SIZE)` from `fs.h`. -/
def DISK_MAX_SIZE : Nat := alignUp (sizeofFile * FILES_MAX) SECTOR_SIZE

example : DISK_MAX_SIZE = 2560 := by decide

/-! ### Byte buffers and C strings

Buffers are `List Nat` of a fixed length (100 for file names, 1024 for
file data).  `cstrOf b` is the C string stored in buffer `b`: its bytes
up to the first NUL. -/

/-- Bytes of a buffer up to (excluding) the first NUL byte: the C string
a `char` array holds. -/
def cstrOf (b : List Nat) : List Nat := b.takeWhile (fun c => c ≠ 0)

/-- Overlay the first `w.length` bytes of buffer `dst` with `w`, keeping
the rest of `dst`; the result has `dst`'s length.  This is what a
`memcpy`/`strcpy` into a fixed-size C array does (writes past the array
end are dropped, see the module comment). -/
def overlayBuf (dst w : List Nat) : List Nat :=
  (List.range dst.length).map fun k => if k < w.length then w.getD k 0 else dst.getD k 0

/-- Bytes written by `strcpy` (from `str.c`): the source string followed
by a terminating NUL. -/
def strBytes (src : List Nat) : List Nat := cstrOf src ++ [0]

/-! ### The scheduler (`proc.c`) -/

/-- Process states `PROC_UNUSED` / `PROC_RUNNABLE` / `PROC_EXITED`. -/
inductive ProcState where
  | UNUSED
  | RUNNABLE
  | EXITED
  deriving DecidableEq, Repr

/-- The scheduling-relevant fields of `struct process`.  `pid` is the C
`int` field; it only ever holds `0` or a slot index plus one, so it is
modelled as `Nat`. -/
structure ProcSlot where
  pid : Nat
  state : ProcState
  deriving DecidableEq, Repr

/-- The process table `procs[PROCS_MAX]`. -/
def ProcTable : Type := Fin PROCS_MAX → ProcSlot

/-- The scheduler module's global state: the table, the `current_proc`
pointer and the `idle_proc` pointer, each `none` when the C pointer is
NULL (both globals live in `.bss` and start out NULL). -/
structure SchedState where
  procs : ProcTable
  currentProc : Option (Fin PROCS_MAX)
  idleProc : Option (Fin PROCS_MAX)

/-- State of the globals after `init_bss`: every slot zeroed
(`pid = 0`, `state = PROC_UNUSED`), both pointers NULL. -/
def schedInit : SchedState :=
  { procs := fun _ => { pid := 0, state := .UNUSED }
    currentProc := none
    idleProc := none }

/-- First slot with `state == PROC_UNUSED`, as scanned by the loop at the
top of `create_process`. -/
def findUnusedSlot (t : ProcTable) : Option (Fin PROCS_MAX) :=
  (List.finRange PROCS_MAX).find? fun i => (t i).state = .UNUSED

/-- Process-table effect of `create_process` (`proc.c`): take the first
unused slot, set `pid = i + 1` and `state = PROC_RUNNABLE`.  Returns the
updated table and the slot; `none` models the `PANIC("no free process
slots")` abort. -/
def create_process_slot (t : ProcTable) : Option (ProcTable × Fin PROCS_MAX) :=
  match findUnusedSlot t with
  | none => none
  | some i => some (Function.update t i { pid := i.val + 1, state := .RUNNABLE }, i)

/-- Effect of `init_idle_process` (`proc.c`) on the globals: calls
`create_process`, sets the new slot's `pid` to 0 and makes it
`current_proc`.  The assignment `struct process *idle_proc = ...` in the
C source declares a *local* variable shadowing the global `idle_proc`,
so the global pointer is left unchanged here, exactly as in the code. -/
def init_idle_process (s : SchedState) : Option SchedState :=
  match create_process_slot s.procs with
  | none => none
  | some (t, i) =>
      some { procs := Function.update t i { pid := 0, state := (t i).state }
             currentProc := some i
             idleProc := s.idleProc }

/-- Effect of `init_user` (`user.c`): one more `create_process`. -/
def init_user (s : SchedState) : Option SchedState :=
  match create_process_slot s.procs with
  | none => none
  | some (t, _) => some { s with procs := t }

/-- The scan loop of `yield` (`proc.c`): for `i = 0 .. PROCS_MAX-1`
examine `procs[(current_proc->pid + i) % PROCS_MAX]` and take the first
slot with `state == PROC_RUNNABLE && pid > 0`. -/
def yieldScan (t : ProcTable) (curPid : Nat) : Option (Fin PROCS_MAX) :=
  (List.range PROCS_MAX).findSome? fun i =>
    let idx : Fin PROCS_MAX := ⟨(curPid + i) % PROCS_MAX, Nat.mod_lt _ (by decide)⟩
    if (t idx).state = .RUNNABLE ∧ (t idx).pid > 0 then some idx else none

/-- Value of `next` after the scan loop of `yield`: the first match, or
else the global `idle_proc` pointer (which may be NULL = `none`). -/
def yieldNext (idleG : Option (Fin PROCS_MAX)) (t : ProcTable) (curPid : Nat) :
    Option (Fin PROCS_MAX) :=
  match yieldScan t curPid with
  | some i => some i
  | none => idleG

/-- Control-flow outcome of `yield`: return without switching
(`next == current_proc`), switch to slot `i`, or dereference a NULL
`next` pointer (the accesses `next->page_table` / `next->stack` /
`next->sp` through a NULL pointer). -/
inductive YieldOutcome where
  | ret
  | switchTo (i : Fin PROCS_MAX)
  | nullDeref
  deriving DecidableEq, Repr

/-- Outcome of `yield` (`proc.c`) from current slot `cur`. -/
def yieldStep (s : SchedState) (cur : Fin PROCS_MAX) : YieldOutcome :=
  match yieldNext s.idleProc s.procs (s.procs cur).pid with
  | none => .nullDeref
  | some i => if i = cur then .ret else .switchTo i

/-- SYS_EXIT effect on the table (`trampoline.c`): mark the current
process `PROC_EXITED`; `yield` then runs. -/
def sysExitMark (s : SchedState) (cur : Fin PROCS_MAX) : SchedState :=
  { s with procs := Function.update s.procs cur { pid := (s.procs cur).pid, state := .EXITED } }

/-! ### Virtual memory (`vm.c`, `alloc.c`)

Physical memory frames are keyed by their base address.  `tables f`
gives the current contents of frame `f` viewed as 1024 32-bit words
(only frames used as page tables are ever read this way).
`alloc_pages(1)` returns the bump cursor, advances it by `PAGE_SIZE` and
zero-fills the frame; the out-of-memory `PANIC` is not modelled (the
claims below never exhaust memory). -/

/-- PTE valid bit, `PAGE_V` in `vm.h`. -/
def PAGE_V : Nat := 1

/-- PTE flag `PAGE_R`. -/
def PAGE_R : Nat := 2

/-- PTE flag `PAGE_W`. -/
def PAGE_W : Nat := 4

/-- PTE flag `PAGE_X`. -/
def PAGE_X : Nat := 8

/-- PTE flag `PAGE_U`. -/
def PAGE_U : Nat := 16

/-- Memory state seen by the paging code. -/
structure VMState where
  nextFrame : Nat
  tables : Nat → Fin 1024 → Nat

/-- Effect of `alloc_pages(1)` (`alloc.c`): return the cursor, advance it
one page, zero the frame. -/
def allocFrame (s : VMState) : Nat × VMState :=
  (s.nextFrame,
   { nextFrame := s.nextFrame + PAGE_SIZE
     tables := Function.update s.tables s.nextFrame fun _ => 0 })

/-- Write word `idx` of the table at frame base `base`. -/
def writeWord (s : VMState) (base : Nat) (idx : Fin 1024) (v : Nat) : VMState :=
  { s with tables := Function.update s.tables base (Function.update (s.tables base) idx v) }

/-- VPN1 of a virtual address: `(vaddr >> 22) & 0x3ff` (`vm.c`). -/
def vpn1of (vaddr : Nat) : Nat := (vaddr >>> 22) % 1024

/-- VPN0 of a virtual address: `(vaddr >> 12) & 0x3ff` (`vm.c`). -/
def vpn0of (vaddr : Nat) : Nat := (vaddr >>> 12) % 1024

/-- The function `map_page(table1, vaddr, paddr, flags)` from `vm.c`.
`none` models the `PANIC` aborts on unaligned `vaddr`/`paddr`.  If the
level-1 entry is invalid a fresh zeroed frame is allocated and installed
as `((pt_paddr / PAGE_SIZE) << 10) | PAGE_V`; then the level-0 entry is
set to `((paddr / PAGE_SIZE) << 10) | flags | PAGE_V`. -/
def map_page (s : VMState) (table1 : Nat) (vaddr paddr flags : Nat) : Option VMState :=
  if vaddr % PAGE_SIZE ≠ 0 then none
  else if paddr % PAGE_SIZE ≠ 0 then none
  else
    let vpn1 : Fin 1024 := ⟨vpn1of vaddr, Nat.mod_lt _ (by decide)⟩
    let vpn0 : Fin 1024 := ⟨vpn0of vaddr, Nat.mod_lt _ (by decide)⟩
    let s1 : VMState :=
      if s.tables table1 vpn1 &&& PAGE_V = 0 then
        let pt_paddr := (allocFrame s).1
        let s' := (allocFrame s).2
        writeWord s' table1 vpn1 ((pt_paddr / PAGE_SIZE) <<< 10 ||| PAGE_V)
      else s
    let table0 : Nat := (s1.tables table1 vpn1 >>> 10) * PAGE_SIZE
    some (writeWord s1 table0 vpn0 ((paddr / PAGE_SIZE) <<< 10 ||| flags ||| PAGE_V))

/-- Map a list of `(vaddr, paddr)` pairs with fixed flags, aborting if
any `map_page` aborts. -/
def mapPages (s : VMState) (table1 : Nat) (ps : List (Nat × Nat)) (flags : Nat) :
    Option VMState :=
  ps.foldlM (fun st p => map_page st table1 p.1 p.2 flags) s

/-- Page-table construction performed by `create_process` (`proc.c`):
allocate a root table, identity-map the kernel range
`[kernelBase, freeRamEnd)` with `R|W|X`, then for each page of the user
image allocate a data frame and map it at `baseAddr + off` with
`U|R|W|X`.  Returns the final memory state and the root frame.
(`create_process` installs no other mapping; in particular it never
touches `VIRTIO_BLK_PADDR`.) -/
def create_process_table (s : VMState) (kernelBase freeRamEnd baseAddr imageSize : Nat) :
    Option (VMState × Nat) :=
  let root := (allocFrame s).1
  let s := (allocFrame s).2
  let kernelPages : List (Nat × Nat) :=
    (List.range ((freeRamEnd - kernelBase + PAGE_SIZE - 1) / PAGE_SIZE)).map
      fun k => (kernelBase + k * PAGE_SIZE, kernelBase + k * PAGE_SIZE)
  match mapPages s root kernelPages (PAGE_R ||| PAGE_W ||| PAGE_X) with
  | none => none
  | some s =>
      let npages := (imageSize + PAGE_SIZE - 1) / PAGE_SIZE
      let userStep : VMState → Nat → Option VMState := fun st k =>
        let page := (allocFrame st).1
        let st := (allocFrame st).2
        map_page st root (baseAddr + k * PAGE_SIZE) page (PAGE_U ||| PAGE_R ||| PAGE_W ||| PAGE_X)
      match (List.range npages).foldlM userStep s with
      | none => none
      | some s => some (s, root)

/-- Address translation through a root table, as the Sv32 hardware (and
the claims) read it: follow the level-1 entry at `vpn1`, then the
level-0 entry at `vpn0`; `none` if either entry has `V = 0`.  Returns
the level-0 PTE. -/
def translate (s : VMState) (root : Nat) (vaddr : Nat) : Option Nat :=
  let e1 := s.tables root ⟨vpn1of vaddr, Nat.mod_lt _ (by decide)⟩
  if e1 &&& PAGE_V = 0 then none
  else
    let e0 := s.tables ((e1 >>> 10) * PAGE_SIZE) ⟨vpn0of vaddr, Nat.mod_lt _ (by decide)⟩
    if e0 &&& PAGE_V = 0 then none else some e0

/-- Reasoning invariant tying a root page table to a target virtual
address `v` while `create_process` builds mappings: the allocator cursor
stays page-aligned; the root frame lies below the cursor; every valid
root entry points at a table frame strictly between the root and the
cursor whose entry at `v`'s VPN0 is invalid whenever the root entry sits
at `v`'s VPN1; and distinct valid root entries point at distinct
tables.  It implies that `v` has no translation. -/
def RootInv (s : VMState) (root v : Nat) : Prop :=
  s.nextFrame % PAGE_SIZE = 0 ∧
  root < s.nextFrame ∧
  (∀ j : Fin 1024, s.tables root j &&& PAGE_V = 0 ∨
    (root < (s.tables root j >>> 10) * PAGE_SIZE ∧
     (s.tables root j >>> 10) * PAGE_SIZE < s.nextFrame ∧
     (j.val = vpn1of v →
       s.tables ((s.tables root j >>> 10) * PAGE_SIZE)
         ⟨vpn0of v, Nat.mod_lt _ (by decide)⟩ &&& PAGE_V = 0))) ∧
  (∀ j k : Fin 1024, j ≠ k →
    s.tables root j &&& PAGE_V ≠ 0 → s.tables root k &&& PAGE_V ≠ 0 →
    (s.tables root j >>> 10) * PAGE_SIZE ≠ (s.tables root k >>> 10) * PAGE_SIZE)

/-! ### The in-memory disk buffer `disk[]`

The buffer is modelled as a total function `Nat → Nat`; a write drops
bytes that would land at or beyond `DISK_MAX_SIZE`, which is exactly the
C array bound.  Every execution appearing in the theorems below keeps
all reads and non-dropped writes inside the bound. -/

/-- The in-memory disk buffer. -/
def Disk : Type := Nat → Nat

/-- Contents of `disk[]` after `memset(disk, 0, sizeof(disk))`. -/
def zeroDisk : Disk := fun _ => 0

/-- Write the bytes `bs` starting at offset `off`; writes at or beyond
the array bound `DISK_MAX_SIZE` are dropped. -/
def writeBytes (d : Disk) (off : Nat) (bs : List Nat) : Disk :=
  fun i => if off ≤ i ∧ i - off < bs.length ∧ i < DISK_MAX_SIZE then bs.getD (i - off) 0 else d i

/-- Read `n` bytes starting at offset `off`. -/
def readBytes (d : Disk) (off n : Nat) : List Nat :=
  (List.range n).map fun k => d (off + k)

/-! ### `atoi` (`lib.c`)

Faithful model of the kernel's `atoi`: skip leading spaces *and zeros*,
note a minus sign, then dispatch on a format character (`b` binary, `o`
octal, `x` hexadecimal, otherwise decimal).  Accumulation is over `Int`;
the C `int32_t` accumulator can overflow (undefined behaviour in C), but
every call below stays far below `2^31`. -/

/-- The skip loop `while (*str == ' ' || *str == '0') str++`. -/
def atoiSkip (s : List Nat) : List Nat := s.dropWhile fun c => c == 32 || c == 48

/-- Binary digit loop of `atoi`. -/
def atoiLoopBin : List Nat → Int → Int
  | [], n => n
  | c :: rest, n => if 48 ≤ c ∧ c ≤ 49 then atoiLoopBin rest (n * 2 + ((c : Int) - 48)) else n

/-- Octal digit loop of `atoi`. -/
def atoiLoopOct : List Nat → Int → Int
  | [], n => n
  | c :: rest, n => if 48 ≤ c ∧ c ≤ 55 then atoiLoopOct rest (n * 8 + ((c : Int) - 48)) else n

/-- Hexadecimal digit loop of `atoi`. -/
def atoiLoopHex : List Nat → Int → Int
  | [], n => n
  | c :: rest, n =>
      if 48 ≤ c ∧ c ≤ 57 then atoiLoopHex rest (n * 16 + ((c : Int) - 48))
      else if 97 ≤ c ∧ c ≤ 102 then atoiLoopHex rest (n * 16 + ((c : Int) - 97 + 10))
      else n

/-- Decimal digit loop of `atoi` (the `default` case, which does not
consume a format character). -/
def atoiLoopDec : List Nat → Int → Int
  | [], n => n
  | c :: rest, n => if 48 ≤ c ∧ c ≤ 57 then atoiLoopDec rest (n * 10 + ((c : Int) - 48)) else n

/-- The `switch (*str)` dispatch of `atoi`. -/
def atoiDispatch (s : List Nat) : Int :=
  match s with
  | 98 :: rest => atoiLoopBin rest 0
  | 111 :: rest => atoiLoopOct rest 0
  | 120 :: rest => atoiLoopHex rest 0
  | _ => atoiLoopDec s 0

/-- The function `atoi` from `lib.c`, on a byte list. -/
def atoi (s : List Nat) : Int :=
  let s1 := atoiSkip s
  match s1 with
  | 45 :: rest => -(atoiDispatch (atoiSkip rest))
  | _ => atoiDispatch s1

/-! ### Archive filesystem (`fs.c`) -/

/-- The fields of `struct file` (`fs.h`).  `name` is the full 100-byte
buffer and `data` the full 1024-byte buffer; `size` is the `size_t`
field. -/
structure FileSlot where
  in_use : Bool
  name : List Nat
  data : List Nat
  size : Nat
  deriving DecidableEq, Repr

/-- The file table `files[FILES_MAX]`. -/
def FileTable : Type := Fin FILES_MAX → FileSlot

/-- The function `fs_lookup` (`fs.c`): linear scan for the first slot
whose stored name compares `strcmp`-equal to `filename`.  Note that the
`in_use` flag is *not* consulted. -/
def fs_lookup (files : FileTable) (filename : List Nat) : Option (Fin FILES_MAX) :=
  (List.finRange FILES_MAX).find? fun i => cstrOf (files i).name == cstrOf filename

/-- Conversion of a `uint32_t` value to the C `int32_t` it converts to. -/
def int32ofUint32 (x : Nat) : Int := if x < 2 ^ 31 then (x : Int) else (x : Int) - 2 ^ 32

/-- Conversion of an `int32_t` value to `size_t` (reduction mod `2^32`). -/
def sizeTofInt32 (x : Int) : Nat := (x % 2 ^ 32).toNat

/-- Offsets of the `tar_header` fields used by the code: `name` 0,
`mode` 100, `size` 124, `mtime` 136, `checksum` 148, `type` 156,
`magic` 257, `version` 263, and the flexible `data` member at 512
(`sizeof(struct tar_header) == 512`). -/
def TAR_HEADER_SIZE : Nat := 512

/-- Bytes of the string literal `"ustar"`. -/
def ustarBytes : List Nat := [117, 115, 116, 97, 114]

/-- Bytes of the string literal `"000644"`. -/
def modeBytes : List Nat := [48, 48, 48, 54, 52, 52]

/-- Bytes of the string literal `"00"`. -/
def versionBytes : List Nat := [48, 48]

/-- Right-aligned octal rendering into a field of `len` bytes, as
written by the digit loops of `flush_fs` (`(filesz % 8) + '0'`,
`filesz /= 8`, filling from the last byte). -/
def octalField (n len : Nat) : List Nat :=
  (List.range len).map fun j => n / 8 ^ (len - 1 - j) % 8 + 48

/-- One iteration of the serialization loop of `flush_fs` for an in-use
file at offset `off`, in the exact order of the C statements:
`memset(header, 0, 512)`; `strcpy` of name, mode, magic, version; the
type byte; the 12-digit octal size; the checksum (byte sum of the
512-byte header with the checksum field still zero, plus `' ' * 8`),
written back as six octal digits, NUL, space; finally
`memcpy(header->data, file->data, file->size)`. -/
def flushFile (d : Disk) (off : Nat) (f : FileSlot) : Disk :=
  let d := writeBytes d off (List.replicate 512 0)
  let d := writeBytes d off (strBytes f.name)
  let d := writeBytes d (off + 100) (strBytes modeBytes)
  let d := writeBytes d (off + 257) (strBytes ustarBytes)
  let d := writeBytes d (off + 263) (strBytes versionBytes)
  let d := writeBytes d (off + 156) [48]
  let d := writeBytes d (off + 124) (octalField f.size 12)
  let chk := 32 * 8 + (readBytes d off 512).sum
  let d := writeBytes d (off + 148) (octalField chk 6)
  let d := writeBytes d (off + 154) [0]
  let d := writeBytes d (off + 155) [32]
  writeBytes d (off + 512) (f.data.take f.size)

/-- One step of `flush_fs`'s loop over the file table: skip slots that
are not in use, otherwise serialize and advance the offset by
`align_up(sizeof(struct tar_header) + file->size, SECTOR_SIZE)`. -/
def flushStep (acc : Disk × Nat) (f : FileSlot) : Disk × Nat :=
  if f.in_use then (flushFile acc.1 acc.2 f, acc.2 + alignUp (512 + f.size) SECTOR_SIZE)
  else acc

/-- The function `flush_fs` (`fs.c`): zero `disk[]`, then serialize the
in-use slots in order (the `FILES_MAX = 2` loop unrolled).  Returns the
disk buffer together with the final offset (the archive extent).  The
final sector-by-sector `read_write_disk` write-out copies `disk[]` to
the device unchanged and is modelled separately by the driver. -/
def flush_fs (files : FileTable) : Disk × Nat :=
  flushStep (flushStep (zeroDisk, 0) (files 0)) (files 1)

/-- Result of interpreting one 512-byte window as a tar header in
`init_fs`: the C string in the name field, the parsed size, and the
bytes `memcpy` copies out of the data area. -/
structure TarEntry where
  name : List Nat
  size : Int
  data : List Nat

/-- Header interpretation step of `init_fs` at offset `off`: stop
(`none`) if the first name byte is NUL or the magic string is not
`"ustar"`; otherwise parse the size field through `atoi` with `"0o"`
prepended and read the data area.  `strcat`/`strcpy` read the size and
name fields as C strings; the model reads to the first NUL within the
rest of the header (resp. the name field), which is exact whenever a NUL
is present there — true of every archive handled in this file, in
particular of everything `flush_fs` produces (its `mtime` field is
zero). -/
def parseHeader (d : Disk) (off : Nat) : Option TarEntry :=
  if d off = 0 then none
  else if cstrOf (readBytes d (off + 257) 8) ≠ ustarBytes then none
  else
    let sizeStr := cstrOf (readBytes d (off + 124) 388)
    let filesz := atoi (48 :: 111 :: sizeStr)
    some { name := cstrOf (readBytes d off 100)
           size := filesz
           data := readBytes d (off + 512) (sizeTofInt32 filesz) }

/-- Effect of one accepted header on file slot `i` in `init_fs`:
`file->in_use = true`; `strcpy(file->name, header->name)`;
`memcpy(file->data, header->data, filesz)`; `file->size = filesz`.
Writes into the fixed-size `name`/`data` buffers overlay their prefix;
fields beyond the copied bytes keep their previous contents. -/
def applyEntry (files : FileTable) (i : Fin FILES_MAX) (e : TarEntry) : FileTable :=
  let f := files i
  Function.update files i
    { in_use := true
      name := overlayBuf f.name (strBytes e.name)
      data := overlayBuf f.data e.data
      size := sizeTofInt32 e.size }

/-- The parsing phase of `init_fs` (`fs.c`), with the `FILES_MAX = 2`
loop unrolled: parse a header at offset 0 and, if accepted, at the next
512-byte-aligned offset after its data.  Slots the loop does not reach
are left exactly as they were (the loop never clears `in_use`). -/
def init_fs (d : Disk) (files : FileTable) : FileTable :=
  match parseHeader d 0 with
  | none => files
  | some e0 =>
      let files1 := applyEntry files 0 e0
      let off1 := alignUp (512 + sizeTofInt32 e0.size) SECTOR_SIZE
      match parseHeader d off1 with
      | none => files1
      | some e1 => applyEntry files1 1 e1

/-- The observable content of a file slot: its C-string name, its size,
and its first `size` data bytes — the "(name, size, data bytes) tuple"
of the round-trip law. -/
def tupleOf (f : FileSlot) : List Nat × Nat × List Nat :=
  (cstrOf f.name, f.size, f.data.take f.size)

/-- Tuples of the in-use slots, in slot order. -/
def inUseTuples (files : FileTable) : List (List Nat × Nat × List Nat) :=
  (if (files 0).in_use then [tupleOf (files 0)] else []) ++
  (if (files 1).in_use then [tupleOf (files 1)] else [])

/-! ### The READFILE/WRITEFILE syscall branch (`trampoline.c`) -/

/-- Result of the `SYS_READFILE`/`SYS_WRITEFILE` branch of
`handle_syscall`: the file table and user buffer afterwards, the value
written to `f->a0`, and whether the file-not-found branch ran. -/
structure FsSyscallResult where
  files : FileTable
  buf : List Nat
  a0 : Int
  notFound : Bool

/-- The `SYS_READFILE`/`SYS_WRITEFILE` branch of `handle_syscall`
(`trampoline.c`).  `a2` is the raw `uint32_t` from the trap frame; `len`
is its `int32_t` view.  If the length exceeds `sizeof(file->data)` it is
replaced — by 1024 for a write, by `file->size` for a read.  A write
then copies `len` bytes from the user buffer into the file data, sets
`file->size = len` and flushes (flushing does not change the table); a
read copies `len` bytes out.  `f->a0` receives `len` (or −1 when the
file is absent). -/
def handle_syscall_file (files : FileTable) (isWrite : Bool) (filename buf : List Nat)
    (a2 : Nat) : FsSyscallResult :=
  let len := int32ofUint32 a2
  match fs_lookup files filename with
  | none => { files := files, buf := buf, a0 := -1, notFound := true }
  | some i =>
      let file := files i
      let len := if len > 1024 then (if isWrite then (1024 : Int) else int32ofUint32 file.size)
                 else len
      if isWrite then
        let file2 := { file with
          data := overlayBuf file.data (buf.take (sizeTofInt32 len))
          size := sizeTofInt32 len }
        { files := Function.update files i file2, buf := buf, a0 := len, notFound := false }
      else
        { files := files, buf := overlayBuf buf (file.data.take (sizeTofInt32 len)),
          a0 := len, notFound := false }

/-! ### The virtio block driver (`virtio_disk.c`) -/

/-- Number of descriptors in the queue, `VIRTQ_ENTRY_NUM`. -/
abbrev VIRTQ_ENTRY_NUM : Nat := 16

/-- Descriptor flag `VIRTQ_DESC_F_NEXT`. -/
def VIRTQ_DESC_F_NEXT : Nat := 1

/-- Descriptor flag `VIRTQ_DESC_F_WRITE`. -/
def VIRTQ_DESC_F_WRITE : Nat := 2

/-- Request type `VIRTIO_BLK_T_IN` (read a sector). -/
def VIRTIO_BLK_T_IN : Nat := 0

/-- Request type `VIRTIO_BLK_T_OUT` (write a sector). -/
def VIRTIO_BLK_T_OUT : Nat := 1

/-- The fields of `struct virtio_blk_req` (`virtio_disk.h`). -/
structure BlkReq where
  type : Nat
  sector : Nat
  data : List Nat
  status : Nat

/-- The fields of `struct virtq_desc` (`virtio.h`). -/
structure VirtqDesc where
  addr : Nat
  len : Nat
  flags : Nat
  next : Nat
  deriving DecidableEq, Repr

/-- Driver-visible state of the virtqueue and block request: the shared
request record, the descriptor table, the available ring and its index,
the driver's shadow `last_seen_used_index`, the device-owned
`used.index`, and the ordered list of values written to the QueueNotify
register. -/
structure DriverState where
  req : BlkReq
  descs : Fin VIRTQ_ENTRY_NUM → VirtqDesc
  availRing : Fin VIRTQ_ENTRY_NUM → Nat
  availIndex : Nat
  lastSeenUsedIndex : Nat
  usedIndex : Nat
  notifications : List Nat

/-- The function `virtq_kick` (`virtio_disk.c`): publish `desc_index` in
the available ring, bump `avail.index` (a `uint16_t`), write the queue
index (0) to QueueNotify, and bump the driver's shadow
`last_seen_used_index` (also `uint16_t`). -/
def virtq_kick (s : DriverState) (desc_index : Nat) : DriverState :=
  { s with
    availRing := Function.update s.availRing
      ⟨s.availIndex % VIRTQ_ENTRY_NUM, Nat.mod_lt _ (by decide)⟩ desc_index
    availIndex := (s.availIndex + 1) % 2 ^ 16
    notifications := s.notifications ++ [0]
    lastSeenUsedIndex := (s.lastSeenUsedIndex + 1) % 2 ^ 16 }

/-- Behaviour of the device on the single outstanding request, as a
function of the request type, sector and data: it returns the status
byte it writes through descriptor 2 and, for a read request, the sector
contents it writes through descriptor 1. -/
def DevOracle : Type := Nat → Nat → List Nat → Nat × List Nat

/-- The function `read_write_disk` (`virtio_disk.c`), against a device
oracle.  `blkReqPaddr` is the physical address of the shared request
record (`offsetof(data) = 16`, `offsetof(status) = 528`);
`blkCapacity` is the byte capacity read at initialization.  Out-of-range
sectors log a failure and return before touching any state.  Otherwise
the request record and descriptors 0–2 are filled (descriptor 2's
`next` field is never assigned), the chain is kicked, the driver
busy-polls until the device's `used.index` catches up with the shadow
index, and a non-zero status logs a failure and returns without copying;
a successful read copies the device data into the caller's buffer. -/
def read_write_disk (dev : DevOracle) (blkReqPaddr : Nat) (s : DriverState)
    (buf : List Nat) (sector : Nat) (isWrite : Bool) (blkCapacity : Nat) :
    DriverState × List Nat :=
  if sector ≥ blkCapacity / SECTOR_SIZE then (s, buf)
  else
    let req1 : BlkReq :=
      { sector := sector
        type := if isWrite then VIRTIO_BLK_T_OUT else VIRTIO_BLK_T_IN
        data := if isWrite then overlayBuf s.req.data (buf.take SECTOR_SIZE) else s.req.data
        status := s.req.status }
    let d0 : VirtqDesc := { addr := blkReqPaddr, len := 16, flags := VIRTQ_DESC_F_NEXT, next := 1 }
    let d1 : VirtqDesc :=
      { addr := blkReqPaddr + 16, len := SECTOR_SIZE
        flags := VIRTQ_DESC_F_NEXT ||| (if isWrite then 0 else VIRTQ_DESC_F_WRITE), next := 2 }
    let d2 : VirtqDesc :=
      { addr := blkReqPaddr + 528, len := 1, flags := VIRTQ_DESC_F_WRITE, next := (s.descs 2).next }
    let s1 := { s with
      req := req1
      descs := Function.update (Function.update (Function.update s.descs 0 d0) 1 d1) 2 d2 }
    let s2 := virtq_kick s1 0
    let devOut := dev req1.type sector req1.data
    let s3 := { s2 with
      usedIndex := s2.lastSeenUsedIndex
      req := { req1 with
        status := devOut.1
        data := if isWrite then req1.data else overlayBuf req1.data (devOut.2.take SECTOR_SIZE) } }
    if devOut.1 ≠ 0 then (s3, buf)
    else if isWrite then (s3, buf)
    else (s3, overlayBuf buf (s3.req.data.take SECTOR_SIZE))

/-- The file-size invariant of the specification: every in-use slot has
`size` at most the 1024-byte data buffer. -/
abbrev sizeInv (files : FileTable) : Prop :=
  ∀ i : Fin FILES_MAX, (files i).in_use = true → (files i).size ≤ 1024

/-- Representation well-formedness of a file slot, as imposed by the C
layout: the name buffer is 100 bytes and holds a NUL-terminated string
(so at most 99 name bytes), the data buffer is 1024 bytes, and the size
is within the data buffer. -/
abbrev wfSlot (f : FileSlot) : Prop :=
  f.name.length = 100 ∧ f.data.length = 1024 ∧
  (cstrOf f.name).length ≤ 99 ∧ f.size ≤ 1024

/-- Size sanity of a (possible) parsed header: its parsed size lies in
`[0, 1024]`. -/
def entrySizeOk : Option TarEntry → Prop
  | none => True
  | some e => 0 ≤ e.size ∧ e.size ≤ 1024

/-! ### Boot/exit scenario (`kernel.c` order) and concrete inputs -/

/-- The boot sequence of `init_boot` as far as the scheduler is
concerned (`init_idle_process`, then `init_user`), followed by the
`yield()` in `kernel_main`, the user process issuing SYS_EXIT (mark
EXITED, call `yield`), and the outcome of that final `yield`. -/
def exitScenarioOutcome : Option YieldOutcome :=
  (init_idle_process schedInit).bind fun s1 =>
  (init_user s1).bind fun s2 =>
  s2.currentProc.bind fun c0 =>
  match yieldStep s2 c0 with
  | .switchTo u =>
      let s3 := { s2 with currentProc := some u }
      some (yieldStep (sysExitMark s3 u) u)
  | _ => none

/-- The post-exit process table of the scenario above, built the same
way, for stating what the scan itself finds. -/
def exitScenarioState : Option (SchedState × Fin PROCS_MAX) :=
  (init_idle_process schedInit).bind fun s1 =>
  (init_user s1).bind fun s2 =>
  s2.currentProc.bind fun c0 =>
  match yieldStep s2 c0 with
  | .switchTo u => some (sysExitMark { s2 with currentProc := some u } u, u)
  | _ => none

/-- Scan order written in the specification's scheduling sentence,
modelled from the spec's words for comparison with `yieldScan`: start at
`(current.pid + 1) mod PROCS_MAX` instead of the code's
`current.pid mod PROCS_MAX`. -/
def yieldScanFromPidSucc (t : ProcTable) (curPid : Nat) : Option (Fin PROCS_MAX) :=
  (List.range PROCS_MAX).findSome? fun i =>
    let idx : Fin PROCS_MAX := ⟨(curPid + 1 + i) % PROCS_MAX, Nat.mod_lt _ (by decide)⟩
    if (t idx).state = .RUNNABLE ∧ (t idx).pid > 0 then some idx else none

/-- The sequence of slot indexes `(start + i) % PROCS_MAX` for
`i = 0 .. PROCS_MAX - 1`: the modular visiting order beginning at
`start`. -/
def slotOrderFrom (start : Nat) : List (Fin PROCS_MAX) :=
  (List.range PROCS_MAX).map fun i => ⟨(start + i) % PROCS_MAX, Nat.mod_lt _ (by decide)⟩

/-- Selection predicate of the scan: RUNNABLE with positive pid. -/
def runnableUser (t : ProcTable) (idx : Fin PROCS_MAX) : Bool :=
  decide ((t idx).state = .RUNNABLE ∧ (t idx).pid > 0)

/-- Process table with slots 0, 1, 2 holding pids 1, 2, 3, all
RUNNABLE — the state after three `create_process` calls — used to
separate the two scan orders. -/
def threeProcTable : ProcTable := fun i =>
  if i.val < 3 then { pid := i.val + 1, state := .RUNNABLE }
  else { pid := 0, state := .UNUSED }

/-- A file slot as left by `init_bss`: all bytes zero. -/
def zeroSlot : FileSlot :=
  { in_use := false, name := List.replicate 100 0, data := List.replicate 1024 0, size := 0 }

/-- The file table as left by `init_bss`: both slots zeroed. -/
def zeroFiles : FileTable := fun _ => zeroSlot

/-- Name buffer holding the one-character name `"a"`. -/
def exName : List Nat := 97 :: List.replicate 99 0

/-- Data buffer holding the single byte `'x'`. -/
def exData : List Nat := 120 :: List.replicate 1023 0

/-- A one-byte file named `"a"`. -/
def exSlotA : FileSlot := { in_use := true, name := exName, data := exData, size := 1 }

/-- File table whose in-use slots are *not* an initial prefix: slot 0
unused, slot 1 in use. -/
def gapTable : FileTable := fun i => if i = 0 then zeroSlot else exSlotA

/-- Name buffer holding `"f"`. -/
def exNameF : List Nat := 102 :: List.replicate 99 0

/-- A 16-byte file named `"f"` (data bytes 1..16 followed by zeros). -/
def exSlotF : FileSlot :=
  { in_use := true, name := exNameF
    data := (List.range 16).map (fun k => k + 1) ++ List.replicate 1008 0
    size := 16 }

/-- File table holding just the 16-byte file `"f"` in slot 0. -/
def tableF : FileTable := fun i => if i = 0 then exSlotF else zeroSlot

/-- A hand-built disk image holding one valid USTAR header at offset 0:
name `"h"`, magic `"ustar"`, and size field `"00000003720"` (octal for
2000) — a well-formed archive whose file is larger than the 1024-byte
in-memory data buffer. -/
def oversizeDisk : Disk := fun i =>
  if i = 0 then 104
  else if 124 ≤ i ∧ i ≤ 130 then 48
  else if i = 131 then 51
  else if i = 132 then 55
  else if i = 133 then 50
  else if i = 134 then 48
  else if i = 257 then 117
  else if i = 258 then 115
  else if i = 259 then 116
  else if i = 260 then 97
  else if i = 261 then 114
  else 0

/-- An empty driver state for concrete instantiations. -/
def exDriverState : DriverState :=
  { req := { type := 0, sector := 0, data := List.replicate 512 0, status := 0 }
    descs := fun _ => { addr := 0, len := 0, flags := 0, next := 0 }
    availRing := fun _ => 0
    availIndex := 0
    lastSeenUsedIndex := 0
    usedIndex := 0
    notifications := [] }

/-- A device oracle that always succeeds and returns sector contents of
all sevens. -/
def devOk : DevOracle := fun _ _ _ => (0, List.replicate 512 7)

/-- A device oracle that always fails with status 1. -/
def devFail : DevOracle := fun _ _ _ => (1, List.replicate 512 7)

/-! ## Helper lemmas -/

theorem lorTwice (x m : Nat) : 2 * x ||| 2 * m = 2 * (x ||| m) := by
  have e := Nat.lor_bit false x false m
  simp only [Nat.bit_val, Bool.toNat_false, Bool.or_self, Nat.add_zero] at e
  exact e

theorem lorTwiceOne (x m : Nat) : 2 * x ||| (2 * m + 1) = 2 * (x ||| m) + 1 := by
  have e := Nat.lor_bit false x true m
  simp only [Nat.bit_val, Bool.toNat_false, Bool.toNat_true, Bool.false_or, Nat.add_zero] at e
  exact e

/-- A shifted value or-ed with a small value is their sum: the arithmetic
content of the PTE constructions `(ppn << 10) | flags`. -/
theorem lorShift (k : Nat) : ∀ p f : Nat, f < 2 ^ k → (p <<< k) ||| f = p * 2 ^ k + f := by
  induction k with
  | zero =>
      intro p f h
      interval_cases f
      simp
  | succ k ih =>
      intro p f h
      have hrec := ih p (f / 2) (by omega)
      have hshift : p <<< (k + 1) = 2 * (p <<< k) := by
        simp [Nat.shiftLeft_eq, Nat.pow_succ, Nat.mul_comm, Nat.mul_assoc, Nat.mul_left_comm]
      rcases Nat.mod_two_eq_zero_or_one f with h0 | h1
      · have hf : f = 2 * (f / 2) := by omega
        rw [hshift, hf, lorTwice, hrec, Nat.pow_succ]
        ring
      · have hf : f = 2 * (f / 2) + 1 := by omega
        rw [hshift, hf, lorTwiceOne, hrec, Nat.pow_succ]
        ring

/-- Recover the PPN from a constructed PTE. -/
theorem pteShiftRight (p f : Nat) (h : f < 1024) : ((p <<< 10) ||| f) >>> 10 = p := by
  rw [lorShift 10 p f h, Nat.shiftRight_eq_div_pow]
  show (p * 1024 + f) / 1024 = p
  omega

/-- The valid-bit test on a constructed PTE sees the low bit of the
or-ed flags. -/
theorem pteAndOne (p f : Nat) (h : f < 1024) : ((p <<< 10) ||| f) &&& 1 = f % 2 := by
  rw [lorShift 10 p f h, Nat.and_one_is_mod]
  omega

/-- Or-ing in the valid bit makes a PTE odd. -/
theorem lorOneOdd (f : Nat) : (f ||| 1) % 2 = 1 := by
  rcases Nat.mod_two_eq_zero_or_one f with h | h
  · have hf : f = 2 * (f / 2) := by omega
    have e := lorTwiceOne (f / 2) 0
    simp only [Nat.mul_zero, Nat.zero_add] at e
    rw [hf, e]
    omega
  · have hf : f = 2 * (f / 2) + 1 := by omega
    have e := Nat.lor_bit true (f / 2) true 0
    simp only [Nat.bit_val, Bool.toNat_true, Bool.or_self, Nat.mul_zero, Nat.zero_add] at e
    rw [hf, e]
    omega

theorem lorLtTwoPow {x y n : Nat} (hx : x < 2 ^ n) (hy : y < 2 ^ n) : x ||| y < 2 ^ n :=
  Nat.or_lt_two_pow hx hy

/-! ## C2 — exit leaves the scheduler with a NULL idle pointer -/

/-- C2: the claim states that when `yield` finds no RUNNABLE slot with
pid > 0 (in particular after the only user process EXITs) it selects the
idle process and the kernel parks without crashing.  On the code this is
false: `init_idle_process` assigns a *shadowing local* `idle_proc`, so
the global `idle_proc` stays NULL, and the post-exit `yield`
dereferences NULL (`next->page_table`) instead of switching to the idle
slot — the kernel takes an unexpected trap and panics.  This theorem
evaluates the boot-then-exit scenario: the outcome is the NULL
dereference; the scan itself finds no candidate; and with the global
pointer set to slot 0 (what `init_idle_process`'s own documentation
prescribes) the very same `yield` would have switched to the idle
process. -/
theorem exit_yield_dereferences_null_idle :
    exitScenarioOutcome = some .nullDeref ∧
    (exitScenarioState.map fun p => yieldScan p.1.procs (p.1.procs p.2).pid) = some none ∧
    (exitScenarioState.map fun p => yieldStep { p.1 with idleProc := some ⟨0, by decide⟩ } p.2)
      = some (.switchTo ⟨0, by decide⟩) := by
  decide

/-! ## C4 — scan order of `yield` -/

/-- C4 counterexample: the claim says slots are examined starting at
index `(current.pid + 1) mod PROCS_MAX`.  With slots 0,1,2 RUNNABLE
holding pids 1,2,3 and slot 0 (pid 1) current, the code's scan (which
starts at index `current.pid`, i.e. one past the current slot because
pid = slot + 1) selects slot 1, while a scan starting at
`(current.pid + 1) mod PROCS_MAX` would select slot 2. -/
theorem yield_scan_start_counterexample :
    threeProcTable ⟨0, by decide⟩ = { pid := 1, state := .RUNNABLE } ∧
    yieldScan threeProcTable 1 = some ⟨1, by decide⟩ ∧
    yieldScanFromPidSucc threeProcTable 1 = some ⟨2, by decide⟩ ∧
    (⟨1, by decide⟩ : Fin PROCS_MAX) ≠ ⟨2, by decide⟩ := by
  decide

theorem findSome?_if_eq_find?_map {α β : Type} (l : List α) (f : α → β) (p : β → Bool) :
    (l.findSome? fun a => if p (f a) = true then some (f a) else none) = (l.map f).find? p := by
  induction l with
  | nil => rfl
  | cons a l ih =>
      by_cases h : p (f a) = true <;>
        simp [List.findSome?_cons, List.find?, h, ih]

/-- C4 as amended: the slots are examined in strict modular order
starting at index `current.pid mod PROCS_MAX` — one past the current
slot whenever `current.pid` equals the current slot index plus one, the
scheme `create_process` establishes — and the scan selects the first
slot in that order with state RUNNABLE and pid > 0 (thereby skipping
EXITED and UNUSED slots). -/
theorem yield_scan_order (t : ProcTable) (c : Fin PROCS_MAX) (h : (t c).pid = c.val + 1) :
    yieldScan t (t c).pid = (slotOrderFrom (t c).pid).find? (runnableUser t) ∧
    (slotOrderFrom (t c).pid).head? =
      some ⟨(c.val + 1) % PROCS_MAX, Nat.mod_lt _ (by decide)⟩ := by
  constructor
  · have base : ∀ p : Nat, yieldScan t p = (slotOrderFrom p).find? (runnableUser t) := by
      intro p
      unfold yieldScan slotOrderFrom runnableUser
      rw [← findSome?_if_eq_find?_map]
      congr 1
      funext i
      by_cases hb : (t ⟨(p + i) % PROCS_MAX, Nat.mod_lt _ (by decide)⟩).state = .RUNNABLE ∧
          (t ⟨(p + i) % PROCS_MAX, Nat.mod_lt _ (by decide)⟩).pid > 0 <;>
        simp [hb]
    exact base _
  · simp [slotOrderFrom, List.head?, h]
    rfl

theorem yield_scan_order_witness :
    (threeProcTable ⟨0, by decide⟩).pid = (0 : Fin PROCS_MAX).val + 1 ∧
    (yieldScan threeProcTable (threeProcTable ⟨0, by decide⟩).pid =
        (slotOrderFrom (threeProcTable ⟨0, by decide⟩).pid).find? (runnableUser threeProcTable) ∧
      (slotOrderFrom (threeProcTable ⟨0, by decide⟩).pid).head? =
        some ⟨((0 : Fin PROCS_MAX).val + 1) % PROCS_MAX, Nat.mod_lt _ (by decide)⟩) :=
  ⟨by decide, yield_scan_order threeProcTable ⟨0, by decide⟩ (by decide)⟩

/-! ## Buffer helper lemmas -/

theorem overlayBuf_length (dst w : List Nat) : (overlayBuf dst w).length = dst.length := by
  simp [overlayBuf]

theorem overlayBuf_full (dst w : List Nat) (h : w.length = dst.length) :
    overlayBuf dst w = w := by
  apply List.ext_getElem
  · simp [overlayBuf, h]
  · intro n h1 h2
    simp only [overlayBuf, List.getElem_map, List.getElem_range]
    have hn : n < w.length := by simp [overlayBuf] at h1; omega
    simp [hn, List.getD_eq_getElem]

theorem take_of_length_eq {w : List Nat} {n : Nat} (h : w.length = n) : w.take n = w :=
  List.take_of_length_le (by omega)

/-! ## C3 — syscall length capping -/

/-- C3 counterexample: the claim says the requested READFILE length is
capped to the file's current size.  With the 16-byte file `"f"` and a
requested length of 1000 (not exceeding the 1024-byte buffer), the code
leaves the length at 1000 — it copies 1000 bytes and returns 1000 in
`a0`, not 16. -/
theorem readfile_cap_counterexample :
    fs_lookup tableF exNameF = some ⟨0, by decide⟩ ∧
    (tableF ⟨0, by decide⟩).size = 16 ∧
    (handle_syscall_file tableF false exNameF (List.replicate 1024 0) 1000).a0 = 1000 ∧
    (handle_syscall_file tableF false exNameF (List.replicate 1024 0) 1000).a0 ≠ 16 := by
  decide

/-- C3 as amended: for a syscall naming an existing file, with a
nonnegative requested length `a2`: for WRITEFILE the length is capped to
1024 (`a0 = min a2 1024`, which is also the new file size and the
number of bytes copied); for READFILE the length is replaced by the
file's current size *only when it exceeds 1024* — otherwise the
requested length is used unchanged, even when it exceeds the file's
size — and the resulting length is returned in `a0`. -/
theorem syscall_length_cap (files : FileTable) (isWrite : Bool) (filename buf : List Nat)
    (a2 : Nat) (i : Fin FILES_MAX)
    (hfound : fs_lookup files filename = some i)
    (ha2 : a2 < 2 ^ 32)
    (hlen : 0 ≤ int32ofUint32 a2) :
    (handle_syscall_file files isWrite filename buf a2).notFound = false ∧
    (isWrite = true →
      (handle_syscall_file files isWrite filename buf a2).a0 = min (int32ofUint32 a2) 1024 ∧
      ((handle_syscall_file files isWrite filename buf a2).files i).size =
        (min (int32ofUint32 a2) 1024).toNat ∧
      ((handle_syscall_file files isWrite filename buf a2).files i).data =
        overlayBuf (files i).data (buf.take (min (int32ofUint32 a2) 1024).toNat) ∧
      (handle_syscall_file files isWrite filename buf a2).buf = buf) ∧
    (isWrite = false →
      (handle_syscall_file files isWrite filename buf a2).a0 =
        (if 1024 < int32ofUint32 a2 then int32ofUint32 (files i).size else int32ofUint32 a2) ∧
      (handle_syscall_file files isWrite filename buf a2).files = files) := by
  set len := int32ofUint32 a2 with hlendef
  have hmin : (if 1024 < len then (1024 : Int) else len) = min len 1024 := by
    rw [Int.min_def]
    split <;> split <;> omega
  have hbound : len < 2 ^ 32 := by
    rw [hlendef]
    unfold int32ofUint32
    split <;> omega
  clear_value len
  have hcap : sizeTofInt32 (if 1024 < len then (1024 : Int) else len) =
      (min len 1024).toNat := by
    unfold sizeTofInt32
    rcases le_or_lt len 1024 with h | h
    · rw [min_eq_left h, if_neg (not_lt.mpr h), Int.emod_eq_of_lt hlen hbound]
    · rw [min_eq_right (le_of_lt h), if_pos h]
      decide
  have hcap2 : sizeTofInt32 (min len 1024) = (min len 1024).toNat := by
    have h := hcap
    rw [hmin] at h
    exact h
  refine ⟨?_, ?_, ?_⟩
  · simp only [handle_syscall_file, hfound]
    split <;> rfl
  · intro hw
    subst hw
    refine ⟨?_, ?_, ?_, ?_⟩ <;>
      simp [handle_syscall_file, hfound, ← hlendef, Function.update, hcap, hcap2, hmin]
  · intro hr
    subst hr
    simp only [handle_syscall_file, hfound, ← hlendef]
    constructor <;> simp

theorem syscall_length_cap_witness :
    fs_lookup tableF exNameF = some ⟨0, by decide⟩ ∧ 0 ≤ int32ofUint32 7 ∧
    ((handle_syscall_file tableF false exNameF (List.replicate 1024 0) 7).notFound = false ∧
      (false = true →
        (handle_syscall_file tableF false exNameF (List.replicate 1024 0) 7).a0 =
          min (int32ofUint32 7) 1024 ∧
        ((handle_syscall_file tableF false exNameF (List.replicate 1024 0) 7).files
            ⟨0, by decide⟩).size = (min (int32ofUint32 7) 1024).toNat ∧
        ((handle_syscall_file tableF false exNameF (List.replicate 1024 0) 7).files
            ⟨0, by decide⟩).data =
          overlayBuf (tableF ⟨0, by decide⟩).data
            ((List.replicate 1024 0).take (min (int32ofUint32 7) 1024).toNat) ∧
        (handle_syscall_file tableF false exNameF (List.replicate 1024 0) 7).buf =
          List.replicate 1024 0) ∧
      (false = false →
        (handle_syscall_file tableF false exNameF (List.replicate 1024 0) 7).a0 =
          (if 1024 < int32ofUint32 7 then int32ofUint32 (tableF ⟨0, by decide⟩).size
           else int32ofUint32 7) ∧
        (handle_syscall_file tableF false exNameF (List.replicate 1024 0) 7).files = tableF)) :=
  ⟨by decide, by decide,
    syscall_length_cap tableF false exNameF (List.replicate 1024 0) 7 ⟨0, by decide⟩
      (by decide) (by decide) (by decide)⟩

/-! ## C6 — file-size invariant -/

/-- C6 counterexample: `init_fs` performs no bound check on the parsed
size.  `oversizeDisk` is a well-formed single-entry archive whose size
field holds octal 3720 (= 2000); after parsing, slot 0 is in use with
`size = 2000 > 1024`, violating the claimed invariant. -/
theorem init_fs_oversize_counterexample :
    (init_fs oversizeDisk zeroFiles ⟨0, by decide⟩).in_use = true ∧
    (init_fs oversizeDisk zeroFiles ⟨0, by decide⟩).size = 2000 ∧
    ¬(init_fs oversizeDisk zeroFiles ⟨0, by decide⟩).size ≤ 1024 := by
  decide

/-- C6 as amended: the invariant `0 ≤ size ≤ 1024` for every in-use slot
is preserved by the file-table mutators — by `init_fs` *provided* every
header the parse accepts has parsed size in `[0, 1024]`, and by the
READFILE/WRITEFILE syscalls *provided* the requested length `a2` is
nonnegative as a signed 32-bit value.  (Lower bound 0 is automatic:
`size` is unsigned.)  Without those provisos the code violates the
invariant, see the counterexample. -/
theorem fs_size_invariant_preserved :
    (∀ (d : Disk) (files : FileTable), sizeInv files →
      (∀ off, entrySizeOk (parseHeader d off)) → sizeInv (init_fs d files)) ∧
    (∀ (files : FileTable) (isWrite : Bool) (filename buf : List Nat) (a2 : Nat),
      sizeInv files → a2 < 2 ^ 31 →
      sizeInv (handle_syscall_file files isWrite filename buf a2).files) := by
  have happly : ∀ (files : FileTable) (i : Fin FILES_MAX) (e : TarEntry), sizeInv files →
      entrySizeOk (some e) → sizeInv (applyEntry files i e) := by
    intro files i e hinv ⟨he0, he1⟩ j hj
    unfold applyEntry at hj ⊢
    by_cases hij : j = i
    · subst hij
      simp only [Function.update_same]
      unfold sizeTofInt32
      omega
    · rw [Function.update_noteq hij] at hj ⊢
      exact hinv j hj
  constructor
  · intro d files hinv hdisk
    rcases h0 : parseHeader d 0 with _ | e0
    · simp only [init_fs, h0]
      exact hinv
    · have he0 : entrySizeOk (some e0) := h0 ▸ hdisk 0
      rcases h1 : parseHeader d (alignUp (512 + sizeTofInt32 e0.size) SECTOR_SIZE) with _ | e1
      · simp only [init_fs, h0, h1]
        exact happly files 0 e0 hinv he0
      · have he1 : entrySizeOk (some e1) := h1 ▸ hdisk _
        simp only [init_fs, h0, h1]
        exact happly _ 1 e1 (happly files 0 e0 hinv he0) he1
  · intro files isWrite filename buf a2 hinv ha2
    unfold handle_syscall_file
    rcases hl : fs_lookup files filename with _ | j
    · exact hinv
    · rcases isWrite with _ | _
      · simpa using hinv
      · simp only [Bool.true_eq_false, if_true, if_false]
        intro k hk
        by_cases hkj : k = j
        · subst hkj
          simp only [Function.update_same] at hk ⊢
          have hlen : int32ofUint32 a2 = (a2 : Int) := by
            unfold int32ofUint32
            rw [if_pos (by omega)]
          unfold sizeTofInt32
          rw [hlen]
          split <;> omega
        · rw [Function.update_noteq hkj] at hk ⊢
          exact hinv k hk

theorem fs_size_invariant_witness :
    (sizeInv zeroFiles ∧ sizeInv (init_fs zeroDisk zeroFiles)) ∧
    (sizeInv zeroFiles ∧ (5 : Nat) < 2 ^ 31 ∧
      sizeInv (handle_syscall_file zeroFiles true exNameF exData 5).files) :=
  ⟨⟨by decide,
    fs_size_invariant_preserved.1 zeroDisk zeroFiles (by decide)
      (fun off => by simp [parseHeader, zeroDisk, entrySizeOk])⟩,
   by decide, by decide,
    fs_size_invariant_preserved.2 zeroFiles true exNameF exData 5 (by decide) (by decide)⟩

/-! ## C8 — sector bounds check in the driver -/

/-- C8: an out-of-range sector (`sector ≥ capacity / 512`) makes
`read_write_disk` log a failure and return before any I/O: the returned
driver state and caller buffer are exactly the input ones, so the block
request record, the descriptors, the available ring, the shadow used
index and the notification log are all unchanged; conversely, whenever
the sector is in range, exactly one QueueNotify write is issued — I/O is
attempted only in range. -/
theorem read_write_disk_bounds_check (dev : DevOracle) (blkp : Nat) (s : DriverState)
    (buf : List Nat) (sector : Nat) (isWrite : Bool) (cap : Nat) :
    (sector ≥ cap / SECTOR_SIZE →
      read_write_disk dev blkp s buf sector isWrite cap = (s, buf)) ∧
    (sector < cap / SECTOR_SIZE →
      (read_write_disk dev blkp s buf sector isWrite cap).1.notifications =
        s.notifications ++ [0]) := by
  constructor
  · intro h
    unfold read_write_disk
    rw [if_pos h]
  · intro h
    unfold read_write_disk
    rw [if_neg (by omega)]
    simp only [apply_ite Prod.fst, ite_self]
    simp [virtq_kick]

theorem read_write_disk_bounds_check_witness :
    ((5 : Nat) ≥ 512 / SECTOR_SIZE →
      read_write_disk devOk 0 exDriverState (List.replicate 512 0) 5 false 512 =
        (exDriverState, List.replicate 512 0)) ∧
    ((5 : Nat) < 512 / SECTOR_SIZE →
      (read_write_disk devOk 0 exDriverState (List.replicate 512 0) 5 false 512).1.notifications =
        exDriverState.notifications ++ [0]) :=
  read_write_disk_bounds_check devOk 0 exDriverState (List.replicate 512 0) 5 false 512

/-! ## C10 — a read fills the caller's buffer only on device success -/

/-- C10: on a read (`is_write = false`), `read_write_disk` copies data
to the caller's buffer only when the device reports status 0; an
out-of-range sector or a non-zero status leaves the caller's buffer
unchanged, and on success the buffer receives exactly the device's
sector data (the length hypotheses state the 512-byte sizes of the
buffers involved). -/
theorem read_only_copies_on_status_zero (dev : DevOracle) (blkp : Nat) (s : DriverState)
    (buf : List Nat) (sector cap : Nat)
    (hreq : s.req.data.length = SECTOR_SIZE)
    (hdev : (dev VIRTIO_BLK_T_IN sector s.req.data).2.length = SECTOR_SIZE)
    (hbuf : buf.length = SECTOR_SIZE) :
    (sector ≥ cap / SECTOR_SIZE → (read_write_disk dev blkp s buf sector false cap).2 = buf) ∧
    ((dev VIRTIO_BLK_T_IN sector s.req.data).1 ≠ 0 →
      (read_write_disk dev blkp s buf sector false cap).2 = buf) ∧
    (sector < cap / SECTOR_SIZE → (dev VIRTIO_BLK_T_IN sector s.req.data).1 = 0 →
      (read_write_disk dev blkp s buf sector false cap).2 =
        (dev VIRTIO_BLK_T_IN sector s.req.data).2) := by
  have htake : (dev VIRTIO_BLK_T_IN sector s.req.data).2.take SECTOR_SIZE =
      (dev VIRTIO_BLK_T_IN sector s.req.data).2 := take_of_length_eq hdev
  have hover : overlayBuf s.req.data (dev VIRTIO_BLK_T_IN sector s.req.data).2 =
      (dev VIRTIO_BLK_T_IN sector s.req.data).2 :=
    overlayBuf_full _ _ (by rw [hdev, hreq])
  refine ⟨?_, ?_, ?_⟩
  · intro h
    unfold read_write_disk
    rw [if_pos h]
  · intro h
    unfold read_write_disk
    split
    · rfl
    · simp only [Bool.false_eq_true, if_false, VIRTIO_BLK_T_IN] at h ⊢
      rw [if_pos (by simpa using h)]
  · intro h hst
    unfold read_write_disk
    rw [if_neg (by omega)]
    simp only [Bool.false_eq_true, if_false, VIRTIO_BLK_T_IN] at hst htake hover hdev ⊢
    rw [if_neg (by simpa using hst)]
    simp only [if_false]
    rw [htake, hover, htake]
    exact overlayBuf_full _ _ (by rw [hdev, hbuf])

theorem read_only_copies_on_status_zero_witness :
    (exDriverState.req.data.length = SECTOR_SIZE ∧
      (devFail VIRTIO_BLK_T_IN 0 exDriverState.req.data).2.length = SECTOR_SIZE ∧
      (List.replicate 512 3).length = SECTOR_SIZE) ∧
    ((devFail VIRTIO_BLK_T_IN 0 exDriverState.req.data).1 ≠ 0 ∧
      (read_write_disk devFail 0 exDriverState (List.replicate 512 3) 0 false 1024).2 =
        List.replicate 512 3) :=
  ⟨⟨by decide, by decide, by decide⟩,
   ⟨by decide,
    (read_only_copies_on_status_zero devFail 0 exDriverState (List.replicate 512 3) 0 1024
      (by decide) (by decide) (by decide)).2.1 (by decide)⟩⟩

/-! ## C9 — `fs_lookup` ignores the `in_use` flag -/

/-- C9: `fs_lookup` compares only the stored name bytes and never checks
`in_use`.  Hence if some slot is unused with all-zero name bytes (and
in-use slots carry nonempty names, as loading an archive guarantees),
looking up the empty string finds that unused slot instead of returning
NULL, and a READFILE or WRITEFILE naming the empty string does not take
the file-not-found branch and (for a nonnegative requested length, with
the size invariant holding) does not return −1. -/
theorem fs_lookup_ignores_in_use (files : FileTable) (fname buf : List Nat) (a2 : Nat)
    (hunused : ∃ i, (files i).in_use = false ∧ cstrOf (files i).name = [])
    (hnames : ∀ i, (files i).in_use = true → cstrOf (files i).name ≠ [])
    (hempty : cstrOf fname = [])
    (ha2 : a2 < 2 ^ 31)
    (hsz : ∀ i : Fin FILES_MAX, (files i).size ≤ 1024) :
    (∃ j, fs_lookup files fname = some j ∧ (files j).in_use = false) ∧
    (handle_syscall_file files false fname buf a2).notFound = false ∧
    (handle_syscall_file files false fname buf a2).a0 ≠ -1 ∧
    (handle_syscall_file files true fname buf a2).notFound = false ∧
    (handle_syscall_file files true fname buf a2).a0 ≠ -1 := by
  have hrange : List.finRange FILES_MAX = [⟨0, by decide⟩, ⟨1, by decide⟩] := by decide
  have hlen : int32ofUint32 a2 = (a2 : Int) := by
    unfold int32ofUint32
    rw [if_pos (by omega)]
  have hlookup : ∃ j, fs_lookup files fname = some j ∧ (files j).in_use = false := by
    unfold fs_lookup
    rw [hrange, hempty]
    by_cases h0 : cstrOf (files (0 : Fin FILES_MAX)).name = []
    · refine ⟨(0 : Fin FILES_MAX), ?_, ?_⟩
      · simp [List.find?, List.isEmpty_iff, h0]
      · by_contra hu
        exact hnames _ (by simpa using hu) h0
    · by_cases h1 : cstrOf (files (1 : Fin FILES_MAX)).name = []
      · refine ⟨(1 : Fin FILES_MAX), ?_, ?_⟩
        · have h0f : (cstrOf (files (0 : Fin FILES_MAX)).name).isEmpty = false := by
            rcases he : cstrOf (files (0 : Fin FILES_MAX)).name with _ | _
            · exact absurd he h0
            · rfl
          simp [List.find?, List.isEmpty_iff, h0f, h1]
        · by_contra hu
          exact hnames _ (by simpa using hu) h1
      · exfalso
        rcases hunused with ⟨i, _, hin⟩
        fin_cases i
        · exact h0 hin
        · exact h1 hin
  rcases hlookup with ⟨j, hj, hju⟩
  have hszj : int32ofUint32 (files j).size = ((files j).size : Int) := by
    unfold int32ofUint32
    rw [if_pos (by have := hsz j; omega)]
  refine ⟨⟨j, hj, hju⟩, ?_, ?_, ?_, ?_⟩ <;>
    · unfold handle_syscall_file
      rw [hj]
      simp only [hlen, hszj]
      split <;> simp <;> (intro hcontra; have := hsz j; omega)

theorem fs_lookup_ignores_in_use_witness :
    ((∃ i, (zeroFiles i).in_use = false ∧ cstrOf (zeroFiles i).name = []) ∧
      (∀ i, (zeroFiles i).in_use = true → cstrOf (zeroFiles i).name ≠ []) ∧
      cstrOf [0] = [] ∧ (3 : Nat) < 2 ^ 31 ∧
      (∀ i : Fin FILES_MAX, (zeroFiles i).size ≤ 1024)) ∧
    ((∃ j, fs_lookup zeroFiles [0] = some j ∧ (zeroFiles j).in_use = false) ∧
      (handle_syscall_file zeroFiles false [0] exData 3).notFound = false ∧
      (handle_syscall_file zeroFiles false [0] exData 3).a0 ≠ -1 ∧
      (handle_syscall_file zeroFiles true [0] exData 3).notFound = false ∧
      (handle_syscall_file zeroFiles true [0] exData 3).a0 ≠ -1) :=
  ⟨⟨⟨⟨0, by decide⟩, by decide, by decide⟩, fun i hi => absurd hi (by fin_cases i <;> decide),
    by decide, by decide, by decide⟩,
   fs_lookup_ignores_in_use zeroFiles [0] exData 3
     ⟨⟨0, by decide⟩, by decide, by decide⟩ (fun i hi => absurd hi (by fin_cases i <;> decide))
     (by decide) (by decide) (by decide)⟩

/-! ## C7 — `map_page` -/

theorem vpn1of_lt (v : Nat) : vpn1of v < 1024 := Nat.mod_lt _ (by decide)

theorem vpn0of_lt (v : Nat) : vpn0of v < 1024 := Nat.mod_lt _ (by decide)

/-- C7: `map_page(root, vaddr, paddr, flags)` aborts iff `vaddr` or
`paddr` is not 4096-byte aligned.  Otherwise, with VPN1 = bits 31:22 and
VPN0 = bits 21:12 of `vaddr`: if the root entry at VPN1 has V = 0, a
fresh zeroed frame is allocated (the bump cursor advances one page), the
root entry becomes `((frame/4096) << 10) | V`, and the fresh frame's
entry at VPN0 becomes `((paddr/4096) << 10) | flags | V` (its other
entries are zero); if the root entry was already valid, the level-0
table it points to gets that same entry at VPN0.  The hypotheses state
that the allocator cursor is page-aligned and distinct from the root
frame (true throughout the kernel: the root is always a previously
allocated frame) and that `flags` fits the low PTE bits. -/
theorem map_page_spec (s : VMState) (table1 vaddr paddr flags : Nat)
    (halloc : s.nextFrame % PAGE_SIZE = 0)
    (hroot : table1 ≠ s.nextFrame) :
    (vaddr % PAGE_SIZE ≠ 0 ∨ paddr % PAGE_SIZE ≠ 0 →
      map_page s table1 vaddr paddr flags = none) ∧
    (vaddr % PAGE_SIZE = 0 → paddr % PAGE_SIZE = 0 →
      ∃ s2, map_page s table1 vaddr paddr flags = some s2 ∧
        vpn1of vaddr = vaddr / 2 ^ 22 % 2 ^ 10 ∧
        vpn0of vaddr = vaddr / 2 ^ 12 % 2 ^ 10 ∧
        (s.tables table1 ⟨vpn1of vaddr, vpn1of_lt vaddr⟩ &&& PAGE_V = 0 →
          s2.nextFrame = s.nextFrame + PAGE_SIZE ∧
          s2.tables table1 ⟨vpn1of vaddr, vpn1of_lt vaddr⟩ =
            (s.nextFrame / PAGE_SIZE) <<< 10 ||| PAGE_V ∧
          s2.tables s.nextFrame ⟨vpn0of vaddr, vpn0of_lt vaddr⟩ =
            (paddr / PAGE_SIZE) <<< 10 ||| flags ||| PAGE_V ∧
          (∀ j : Fin 1024, j.val ≠ vpn0of vaddr → s2.tables s.nextFrame j = 0)) ∧
        (s.tables table1 ⟨vpn1of vaddr, vpn1of_lt vaddr⟩ &&& PAGE_V ≠ 0 →
          s2.nextFrame = s.nextFrame ∧
          s2.tables ((s.tables table1 ⟨vpn1of vaddr, vpn1of_lt vaddr⟩ >>> 10) * PAGE_SIZE)
              ⟨vpn0of vaddr, vpn0of_lt vaddr⟩ =
            (paddr / PAGE_SIZE) <<< 10 ||| flags ||| PAGE_V)) := by
  constructor
  · intro h
    unfold map_page
    rcases h with h | h
    · rw [if_pos h]
    · by_cases hv : vaddr % PAGE_SIZE ≠ 0
      · rw [if_pos hv]
      · rw [if_neg hv, if_pos h]
  · intro hv hp
    unfold map_page
    rw [if_neg (by simp [hv]), if_neg (by simp [hp])]
    have hshift1 : vpn1of vaddr = vaddr / 2 ^ 22 % 2 ^ 10 := by
      unfold vpn1of
      rw [Nat.shiftRight_eq_div_pow]
      norm_num
    have hshift0 : vpn0of vaddr = vaddr / 2 ^ 12 % 2 ^ 10 := by
      unfold vpn0of
      rw [Nat.shiftRight_eq_div_pow]
      norm_num
    have hpt : ((s.nextFrame / PAGE_SIZE) <<< 10 ||| PAGE_V) >>> 10 =
        s.nextFrame / PAGE_SIZE := pteShiftRight _ _ (by decide)
    have hptr : s.nextFrame / PAGE_SIZE * PAGE_SIZE = s.nextFrame :=
      Nat.div_mul_cancel (Nat.dvd_of_mod_eq_zero halloc)
    by_cases hval : s.tables table1 ⟨vpn1of vaddr, vpn1of_lt vaddr⟩ &&& PAGE_V = 0
    · refine ⟨_, rfl, hshift1, hshift0, ?_, fun hc => absurd hval hc⟩
      intro _
      rw [if_pos hval]
      refine ⟨rfl, ?_, ?_, ?_⟩
      · simp [allocFrame, writeWord, Function.update, hpt, hptr, hroot]
      · simp [allocFrame, writeWord, Function.update, hpt, hptr, hroot]
      · intro j hj
        simp [allocFrame, writeWord, Function.update, hpt, hptr, hroot, Ne.symm hroot,
          Fin.ext_iff, hj]
    · refine ⟨_, rfl, hshift1, hshift0, fun hc => absurd hc hval, ?_⟩
      intro _
      rw [if_neg hval]
      exact ⟨rfl, by simp [writeWord, Function.update_same]⟩

theorem map_page_spec_witness :
    ((40960 : Nat) % PAGE_SIZE = 0 ∧ (0 : Nat) ≠ 40960) ∧
    (((4096 : Nat) % PAGE_SIZE ≠ 0 ∨ (8192 : Nat) % PAGE_SIZE ≠ 0 →
      map_page ⟨40960, fun _ _ => 0⟩ 0 4096 8192 2 = none) ∧
    ((4096 : Nat) % PAGE_SIZE = 0 → (8192 : Nat) % PAGE_SIZE = 0 →
      ∃ s2, map_page ⟨40960, fun _ _ => 0⟩ 0 4096 8192 2 = some s2 ∧
        vpn1of 4096 = 4096 / 2 ^ 22 % 2 ^ 10 ∧
        vpn0of 4096 = 4096 / 2 ^ 12 % 2 ^ 10 ∧
        ((⟨40960, fun _ _ => 0⟩ : VMState).tables 0 ⟨vpn1of 4096, vpn1of_lt 4096⟩ &&& PAGE_V = 0 →
          s2.nextFrame = 40960 + PAGE_SIZE ∧
          s2.tables 0 ⟨vpn1of 4096, vpn1of_lt 4096⟩ = (40960 / PAGE_SIZE) <<< 10 ||| PAGE_V ∧
          s2.tables 40960 ⟨vpn0of 4096, vpn0of_lt 4096⟩ =
            (8192 / PAGE_SIZE) <<< 10 ||| 2 ||| PAGE_V ∧
          (∀ j : Fin 1024, j.val ≠ vpn0of 4096 → s2.tables 40960 j = 0)) ∧
        ((⟨40960, fun _ _ => 0⟩ : VMState).tables 0 ⟨vpn1of 4096, vpn1of_lt 4096⟩ &&& PAGE_V ≠ 0 →
          s2.nextFrame = 40960 ∧
          s2.tables (((⟨40960, fun _ _ => 0⟩ : VMState).tables 0
                ⟨vpn1of 4096, vpn1of_lt 4096⟩ >>> 10) * PAGE_SIZE)
              ⟨vpn0of 4096, vpn0of_lt 4096⟩ = (8192 / PAGE_SIZE) <<< 10 ||| 2 ||| PAGE_V))) :=
  ⟨⟨by decide, by decide⟩,
    map_page_spec ⟨40960, fun _ _ => 0⟩ 0 4096 8192 2 (by decide) (by decide)⟩

/-! ## C1 — `create_process` and the virtio MMIO range -/

theorem writeWord_nextFrame (s : VMState) (b : Nat) (i : Fin 1024) (v : Nat) :
    (writeWord s b i v).nextFrame = s.nextFrame := rfl

theorem writeWord_read_same (s : VMState) (b : Nat) (i : Fin 1024) (v : Nat) :
    (writeWord s b i v).tables b i = v := by
  simp [writeWord]

theorem writeWord_read_frame (s : VMState) (b : Nat) (i : Fin 1024) (v : Nat) :
    (writeWord s b i v).tables b = Function.update (s.tables b) i v := by
  simp [writeWord]

theorem writeWord_read_other (s : VMState) (b : Nat) (i : Fin 1024) (v : Nat)
    (c : Nat) (h : c ≠ b) : (writeWord s b i v).tables c = s.tables c := by
  simp [writeWord, Function.update_noteq h]

theorem allocFrame_read_other (s : VMState) (c : Nat) (h : c ≠ s.nextFrame) :
    (allocFrame s).2.tables c = s.tables c := by
  simp [allocFrame, Function.update_noteq h]

theorem allocFrame_read_fresh (s : VMState) :
    (allocFrame s).2.tables s.nextFrame = fun _ => 0 := by
  simp [allocFrame]

theorem allocFrame_nextFrame (s : VMState) :
    (allocFrame s).2.nextFrame = s.nextFrame + PAGE_SIZE := rfl

/-- The invariant really says `v` is unmapped. -/
theorem rootInv_translate {s : VMState} {root v : Nat} (h : RootInv s root v) :
    translate s root v = none := by
  obtain ⟨-, -, hentries, -⟩ := h
  unfold translate
  by_cases he1 : s.tables root ⟨vpn1of v, Nat.mod_lt _ (by decide)⟩ &&& PAGE_V = 0
  · rw [if_pos he1]
  · rw [if_neg he1]
    rcases hentries ⟨vpn1of v, Nat.mod_lt _ (by decide)⟩ with he | ⟨-, -, hcont⟩
    · exact absurd he he1
    · rw [if_pos (hcont rfl)]

/-- The invariant is preserved by allocating a (data) frame. -/
theorem rootInv_alloc {s : VMState} {root v : Nat} (h : RootInv s root v) :
    RootInv (allocFrame s).2 root v := by
  obtain ⟨halign, hroot, hentries, hinj⟩ := h
  have hro : (allocFrame s).2.tables root = s.tables root :=
    allocFrame_read_other s root (by omega)
  refine ⟨?_, ?_, ?_, ?_⟩
  · rw [allocFrame_nextFrame]
    simp only [PAGE_SIZE] at halign ⊢
    omega
  · rw [allocFrame_nextFrame]
    omega
  · intro j
    rw [hro]
    rcases hentries j with he | ⟨hb1, hb2, hcont⟩
    · exact Or.inl he
    · refine Or.inr ⟨hb1, by rw [allocFrame_nextFrame]; omega, fun hj => ?_⟩
      rw [allocFrame_read_other s _ (by omega)]
      exact hcont hj
  · intro j k hjk hj hk
    rw [hro] at hj hk ⊢
    exact hinj j k hjk hj hk

/-- The invariant holds for a freshly allocated (zeroed) root table. -/
theorem rootInv_init (s0 : VMState) (v : Nat) (h : s0.nextFrame % PAGE_SIZE = 0) :
    RootInv (allocFrame s0).2 s0.nextFrame v := by
  refine ⟨?_, ?_, ?_, ?_⟩
  · rw [allocFrame_nextFrame]
    simp only [PAGE_SIZE] at h ⊢
    omega
  · rw [allocFrame_nextFrame]
    simp [PAGE_SIZE]
  · intro j
    rw [allocFrame_read_fresh]
    exact Or.inl (by simp)
  · intro j k _ hj _
    rw [allocFrame_read_fresh] at hj
    simp at hj

/-- The invariant is preserved by `map_page` at any page whose VPN pair
differs from `v`'s, and the call succeeds. -/
theorem rootInv_map {s : VMState} {root v : Nat} (w pa fl : Nat)
    (h : RootInv s root v)
    (hw : w % PAGE_SIZE = 0) (hpa : pa % PAGE_SIZE = 0)
    (hne : ¬(vpn1of w = vpn1of v ∧ vpn0of w = vpn0of v)) :
    ∃ s2, map_page s root w pa fl = some s2 ∧ RootInv s2 root v := by
  obtain ⟨halign, hroot, hentries, hinj⟩ := h
  unfold map_page
  rw [if_neg (by simp [hw]), if_neg (by simp [hpa])]
  refine ⟨_, rfl, ?_⟩
  simp only []
  by_cases hval : s.tables root ⟨vpn1of w, Nat.mod_lt _ (by decide)⟩ &&& PAGE_V = 0
  case pos =>
    rw [if_pos hval]
    have hptE : ((s.nextFrame / PAGE_SIZE) <<< 10 ||| PAGE_V) >>> 10 * PAGE_SIZE =
        s.nextFrame := by
      rw [pteShiftRight _ _ (by decide)]
      exact Nat.div_mul_cancel (Nat.dvd_of_mod_eq_zero halign)
    have hrne : root ≠ s.nextFrame := Nat.ne_of_lt hroot
    simp only [show (allocFrame s).1 = s.nextFrame from rfl]
    rw [writeWord_read_same, hptE]
    constructor
    · rw [writeWord_nextFrame, writeWord_nextFrame, allocFrame_nextFrame]
      simp only [PAGE_SIZE] at halign ⊢
      omega
    refine ⟨?_, ?_, ?_⟩
    · rw [writeWord_nextFrame, writeWord_nextFrame, allocFrame_nextFrame]
      omega
    · intro j
      rw [writeWord_read_other _ _ _ _ root hrne, writeWord_read_frame,
        allocFrame_read_other s root hrne]
      by_cases hj : j = ⟨vpn1of w, Nat.mod_lt _ (by decide)⟩
      · subst hj
        rw [Function.update_same]
        refine Or.inr ⟨?_, ?_, ?_⟩
        · rw [hptE]
          omega
        · rw [hptE, writeWord_nextFrame, writeWord_nextFrame, allocFrame_nextFrame]
          simp [PAGE_SIZE]
        · intro hjv
          rw [hptE, writeWord_read_frame]
          have hv0 : vpn0of v ≠ vpn0of w := by
            intro hc
            exact hne ⟨hjv, hc.symm⟩
          rw [Function.update_noteq (by simp [Fin.ext_iff]; exact hv0)]
          rw [writeWord_read_other _ _ _ _ _ (Ne.symm hrne), allocFrame_read_fresh]
          simp
      · rw [Function.update_noteq hj]
        rcases hentries j with he | ⟨hb1, hb2, hcont⟩
        · exact Or.inl he
        · refine Or.inr ⟨hb1, ?_, ?_⟩
          · rw [writeWord_nextFrame, writeWord_nextFrame, allocFrame_nextFrame]
            omega
          · intro hjv
            have hne1 : (s.tables root j >>> 10) * PAGE_SIZE ≠ s.nextFrame :=
              Nat.ne_of_lt hb2
            have hne2 : (s.tables root j >>> 10) * PAGE_SIZE ≠ root :=
              Ne.symm (Nat.ne_of_lt hb1)
            rw [writeWord_read_other _ _ _ _ _ hne1,
              writeWord_read_other _ _ _ _ _ hne2,
              allocFrame_read_other _ _ hne1]
            exact hcont hjv
    · intro j k hjk hj hk
      rw [writeWord_read_other _ _ _ _ root hrne, writeWord_read_frame,
        allocFrame_read_other s root hrne] at hj hk ⊢
      by_cases hjw : j = ⟨vpn1of w, Nat.mod_lt _ (by decide)⟩
      · subst hjw
        rw [Function.update_same, hptE]
        rw [Function.update_noteq (fun hc => hjk hc.symm)] at hk ⊢
        rcases hentries k with he | ⟨-, hkb2, -⟩
        · exact absurd he hk
        · exact Ne.symm (Nat.ne_of_lt hkb2)
      · rw [Function.update_noteq hjw] at hj ⊢
        by_cases hkw : k = ⟨vpn1of w, Nat.mod_lt _ (by decide)⟩
        · subst hkw
          rw [Function.update_same, hptE]
          rcases hentries j with he | ⟨-, hjb2, -⟩
          · exact absurd he hj
          · exact Nat.ne_of_lt hjb2
        · rw [Function.update_noteq hkw] at hk ⊢
          exact hinj j k hjk hj hk
  case neg =>
    rw [if_neg hval]
    rcases hentries ⟨vpn1of w, Nat.mod_lt _ (by decide)⟩ with he | ⟨hb1, hb2, hcontw⟩
    · exact absurd he hval
    have ht0root : (s.tables root ⟨vpn1of w, Nat.mod_lt _ (by decide)⟩ >>> 10) * PAGE_SIZE ≠
        root := Ne.symm (Nat.ne_of_lt hb1)
    have hrootread : (writeWord s
        ((s.tables root ⟨vpn1of w, Nat.mod_lt _ (by decide)⟩ >>> 10) * PAGE_SIZE)
        ⟨vpn0of w, Nat.mod_lt _ (by decide)⟩
        ((pa / PAGE_SIZE) <<< 10 ||| fl ||| PAGE_V)).tables root = s.tables root :=
      writeWord_read_other _ _ _ _ root (Ne.symm ht0root)
    refine ⟨by rw [writeWord_nextFrame]; exact halign,
            by rw [writeWord_nextFrame]; exact hroot, ?_, ?_⟩
    · intro j
      rw [hrootread]
      by_cases hjval : s.tables root j &&& PAGE_V = 0
      · exact Or.inl hjval
      rcases hentries j with he | ⟨hjb1, hjb2, hjcont⟩
      · exact absurd he hjval
      · refine Or.inr ⟨hjb1, by rw [writeWord_nextFrame]; exact hjb2, ?_⟩
        intro hjv
        by_cases hsame : (s.tables root j >>> 10) * PAGE_SIZE =
            (s.tables root ⟨vpn1of w, Nat.mod_lt _ (by decide)⟩ >>> 10) * PAGE_SIZE
        · have hjw : j = ⟨vpn1of w, Nat.mod_lt _ (by decide)⟩ := by
            by_contra hne2
            exact hinj j _ hne2 hjval hval hsame
          have hv1 : vpn1of w = vpn1of v := by
            rw [← hjv, hjw]
          have hv0 : vpn0of v ≠ vpn0of w := fun hc => hne ⟨hv1, hc.symm⟩
          rw [hsame, writeWord_read_frame,
            Function.update_noteq (by simp [Fin.ext_iff]; exact hv0)]
          rw [← hsame]
          exact hjcont hjv
        · rw [writeWord_read_other _ _ _ _ _ hsame]
          exact hjcont hjv
    · intro j k hjk hj hk
      rw [hrootread] at hj hk ⊢
      exact hinj j k hjk hj hk

theorem vpn1of_eq_div {a : Nat} (h : a < 2 ^ 32) : vpn1of a = a / 2 ^ 22 := by
  unfold vpn1of
  rw [Nat.shiftRight_eq_div_pow]
  apply Nat.mod_eq_of_lt
  omega

/-- The VPN pair of an address below `2^32` determines its page number. -/
theorem vpnPair_det {a b : Nat} (ha : a < 2 ^ 32) (hb : b < 2 ^ 32)
    (h1 : vpn1of a = vpn1of b) (h0 : vpn0of a = vpn0of b) :
    a / PAGE_SIZE = b / PAGE_SIZE := by
  rw [vpn1of_eq_div ha, vpn1of_eq_div hb] at h1
  unfold vpn0of at h0
  rw [Nat.shiftRight_eq_div_pow, Nat.shiftRight_eq_div_pow] at h0
  simp only [PAGE_SIZE]
  omega

/-- Two distinct page-aligned addresses below `2^32` have distinct VPN
pairs. -/
theorem pageNe_vpnPair {w v : Nat} (hw : w % PAGE_SIZE = 0) (hv : v % PAGE_SIZE = 0)
    (hne : w ≠ v) (hw32 : w < 2 ^ 32) (hv32 : v < 2 ^ 32) :
    ¬(vpn1of w = vpn1of v ∧ vpn0of w = vpn0of v) := by
  rintro ⟨h1, h0⟩
  have hd := vpnPair_det hw32 hv32 h1 h0
  simp only [PAGE_SIZE] at hd hw hv
  omega

/-- The invariant is carried through the kernel identity-mapping fold of
`create_process`. -/
theorem rootInv_mapPages {root v fl : Nat} :
    ∀ (l : List (Nat × Nat)) (s : VMState), RootInv s root v →
    (∀ p ∈ l, p.1 % PAGE_SIZE = 0 ∧ p.2 % PAGE_SIZE = 0 ∧
      ¬(vpn1of p.1 = vpn1of v ∧ vpn0of p.1 = vpn0of v)) →
    ∃ s2, mapPages s root l fl = some s2 ∧ RootInv s2 root v := by
  intro l
  induction l with
  | nil =>
      intro s h _
      exact ⟨s, rfl, h⟩
  | cons p l ih =>
      intro s h hl
      obtain ⟨hw, hpa, hne⟩ := hl p (List.mem_cons_self p l)
      obtain ⟨s1, hmap, h1⟩ := rootInv_map p.1 p.2 fl h hw hpa hne
      obtain ⟨s2, hfold, h2⟩ := ih s1 h1 fun q hq => hl q (List.mem_cons_of_mem _ hq)
      refine ⟨s2, ?_, h2⟩
      simp only [mapPages, List.foldlM_cons, hmap, Option.bind_eq_bind, Option.some_bind]
      exact hfold

/-- The invariant is carried through the user-image mapping fold of
`create_process` (each step allocates a data frame at the cursor, then
maps it). -/
theorem rootInv_userPages {root v fl base : Nat} (hbase : base % PAGE_SIZE = 0) :
    ∀ (l : List Nat) (s : VMState), RootInv s root v →
    (∀ k ∈ l, ¬(vpn1of (base + k * PAGE_SIZE) = vpn1of v ∧
        vpn0of (base + k * PAGE_SIZE) = vpn0of v)) →
    ∃ s2, (l.foldlM (fun st k =>
        map_page (allocFrame st).2 root (base + k * PAGE_SIZE) (allocFrame st).1 fl) s)
      = some s2 ∧ RootInv s2 root v := by
  intro l
  induction l with
  | nil =>
      intro s h _
      exact ⟨s, rfl, h⟩
  | cons k l ih =>
      intro s h hl
      have halignS : s.nextFrame % PAGE_SIZE = 0 := h.1
      have hwal : (base + k * PAGE_SIZE) % PAGE_SIZE = 0 := by
        simp only [PAGE_SIZE] at hbase ⊢
        omega
      obtain ⟨s1, hmap, h1⟩ :=
        rootInv_map (base + k * PAGE_SIZE) (allocFrame s).1 fl (rootInv_alloc h)
          hwal halignS (hl k (List.mem_cons_self k l))
      obtain ⟨s2, hfold, h2⟩ := ih s1 h1 fun q hq => hl q (List.mem_cons_of_mem _ hq)
      refine ⟨s2, ?_, h2⟩
      simp only [List.foldlM_cons, hmap, Option.bind_eq_bind, Option.some_bind]
      exact hfold

/-- C1: the claim (and `create_process`'s own header documentation in
`proc.h`) say the resulting root table identity-maps the virtio MMIO
range at `VIRTIO_BLK_PADDR` with R and W.  The code installs no such
mapping: it maps only the kernel range `[kernelBase, freeRamEnd)` and
the user image at `baseAddr`.  Whenever `VIRTIO_BLK_PADDR` lies outside
both ranges (as on the target platform, where the kernel is linked at
`0x80200000` and the MMIO device sits at `0x10001000`), the created
table gives `VIRTIO_BLK_PADDR` *no* translation at all. -/
theorem create_process_no_virtio_mapping
    (s0 : VMState) (kb fre base imgSize : Nat)
    (hc : s0.nextFrame % PAGE_SIZE = 0)
    (hkb : kb % PAGE_SIZE = 0)
    (hbase : base % PAGE_SIZE = 0)
    (hkv : VIRTIO_BLK_PADDR < kb ∨ fre ≤ VIRTIO_BLK_PADDR)
    (huv : VIRTIO_BLK_PADDR < base ∨ base + alignUp imgSize PAGE_SIZE ≤ VIRTIO_BLK_PADDR)
    (hk32 : fre ≤ 2 ^ 32)
    (hu32 : base + alignUp imgSize PAGE_SIZE ≤ 2 ^ 32) :
    ∃ s2 root, create_process_table s0 kb fre base imgSize = some (s2, root) ∧
      translate s2 root VIRTIO_BLK_PADDR = none := by
  have hv4 : VIRTIO_BLK_PADDR % PAGE_SIZE = 0 := by decide
  have hv32 : VIRTIO_BLK_PADDR < 2 ^ 32 := by decide
  have hlK : ∀ p ∈ (List.range ((fre - kb + PAGE_SIZE - 1) / PAGE_SIZE)).map
      (fun k => (kb + k * PAGE_SIZE, kb + k * PAGE_SIZE)),
      p.1 % PAGE_SIZE = 0 ∧ p.2 % PAGE_SIZE = 0 ∧
      ¬(vpn1of p.1 = vpn1of VIRTIO_BLK_PADDR ∧ vpn0of p.1 = vpn0of VIRTIO_BLK_PADDR) := by
    intro p hp
    rw [List.mem_map] at hp
    obtain ⟨k, hk, rfl⟩ := hp
    rw [List.mem_range] at hk
    have hal : (kb + k * PAGE_SIZE) % PAGE_SIZE = 0 := by
      simp only [PAGE_SIZE] at hkb ⊢
      omega
    have hkfre : kb + k * PAGE_SIZE < fre := by
      have hD := Nat.div_mul_le_self (fre - kb + PAGE_SIZE - 1) PAGE_SIZE
      simp only [PAGE_SIZE] at hk hD ⊢
      omega
    refine ⟨hal, hal, pageNe_vpnPair hal hv4 ?_ (by omega) hv32⟩
    rcases hkv with hkv | hkv <;> omega
  have hlU : ∀ k ∈ List.range ((imgSize + PAGE_SIZE - 1) / PAGE_SIZE),
      ¬(vpn1of (base + k * PAGE_SIZE) = vpn1of VIRTIO_BLK_PADDR ∧
        vpn0of (base + k * PAGE_SIZE) = vpn0of VIRTIO_BLK_PADDR) := by
    intro k hk
    rw [List.mem_range] at hk
    have hal : (base + k * PAGE_SIZE) % PAGE_SIZE = 0 := by
      simp only [PAGE_SIZE] at hbase ⊢
      omega
    have hlt : base + k * PAGE_SIZE < base + alignUp imgSize PAGE_SIZE := by
      simp only [alignUp, PAGE_SIZE] at hk ⊢
      omega
    refine pageNe_vpnPair hal hv4 ?_ (by omega) hv32
    rcases huv with huv | huv <;> omega
  obtain ⟨s2, hkmap, hinv2⟩ :=
    rootInv_mapPages _ (allocFrame s0).2 (rootInv_init s0 VIRTIO_BLK_PADDR hc) hlK
  obtain ⟨s3, humap, hinv3⟩ := rootInv_userPages hbase _ s2 hinv2 hlU
  refine ⟨s3, s0.nextFrame, ?_, rootInv_translate hinv3⟩
  unfold create_process_table
  simp only [show (allocFrame s0).1 = s0.nextFrame from rfl]
  rw [hkmap]
  simp only []
  rw [humap]

theorem create_process_no_virtio_mapping_witness :
    ((0 : Nat) % PAGE_SIZE = 0 ∧ (0x80200000 : Nat) % PAGE_SIZE = 0 ∧
      (0x01000000 : Nat) % PAGE_SIZE = 0 ∧
      (VIRTIO_BLK_PADDR < 0x80200000 ∨ (0x80201000 : Nat) ≤ VIRTIO_BLK_PADDR) ∧
      (VIRTIO_BLK_PADDR < 0x01000000 ∨
        (0x01000000 : Nat) + alignUp 4096 PAGE_SIZE ≤ VIRTIO_BLK_PADDR) ∧
      (0x80201000 : Nat) ≤ 2 ^ 32 ∧ (0x01000000 : Nat) + alignUp 4096 PAGE_SIZE ≤ 2 ^ 32) ∧
    (∃ s2 root, create_process_table ⟨0, fun _ _ => 0⟩ 0x80200000 0x80201000 0x01000000 4096 =
        some (s2, root) ∧ translate s2 root VIRTIO_BLK_PADDR = none) :=
  ⟨⟨by decide, by decide, by decide, by decide, by decide, by decide, by decide⟩,
    create_process_no_virtio_mapping ⟨0, fun _ _ => 0⟩ 0x80200000 0x80201000 0x01000000 4096
      (by decide) (by decide) (by decide) (by decide) (by decide) (by decide) (by decide)⟩

/-! ## C5 — flush/load round trip

The development below establishes, byte by byte, what `flush_fs` writes
and what `init_fs` reads back. -/

theorem readBytes_congr {d1 d2 : Disk} {off n : Nat}
    (h : ∀ k, k < n → d1 (off + k) = d2 (off + k)) :
    readBytes d1 off n = readBytes d2 off n := by
  unfold readBytes
  exact List.map_congr_left fun k hk => h k (List.mem_range.mp hk)

theorem readBytes_split (d : Disk) (off m n : Nat) :
    readBytes d off (m + n) = readBytes d off m ++ readBytes d (off + m) n := by
  unfold readBytes
  rw [List.range_add, List.map_append, List.map_map]
  congr 1
  apply List.map_congr_left
  intro k _
  simp [Nat.add_assoc]

theorem readBytes_one (d : Disk) (off : Nat) : readBytes d off 1 = [d off] := by
  simp [readBytes, List.range_succ]

/-- A C string contains no NUL byte. -/
theorem cstrOf_ne_zero {b : List Nat} {x : Nat} (h : x ∈ cstrOf b) : x ≠ 0 := by
  have := List.mem_takeWhile_imp h
  simpa using this

theorem cstrOf_idem (b : List Nat) : cstrOf (cstrOf b) = cstrOf b :=
  List.takeWhile_idem

/-- Reading a C string that is followed by a NUL: the bytes before the
NUL are all nonzero, so `takeWhile` stops exactly at the NUL. -/
theorem cstr_of_append {cs rest : List Nat} (h : ∀ x ∈ cs, x ≠ 0) :
    cstrOf (cs ++ 0 :: rest) = cs := by
  unfold cstrOf
  have hself : cs.takeWhile (fun c => decide (c ≠ 0)) = cs := by
    rw [List.takeWhile_eq_self_iff]
    intro x hx
    simpa using h x hx
  rw [List.takeWhile_append]
  split
  case isTrue ht =>
    simp [List.takeWhile_cons]
  case isFalse hf =>
    exact absurd (by rw [hself]) hf

/-- Collecting pointwise byte values into a `readBytes` equation. -/
theorem readBytes_eq_of_getD {d : Disk} {off : Nat} {L : List Nat}
    (h : ∀ k, k < L.length → d (off + k) = L.getD k 0) :
    readBytes d off L.length = L := by
  apply List.ext_getElem
  · simp [readBytes]
  · intro k h1 h2
    simp only [readBytes, List.getElem_map, List.getElem_range]
    rw [h k h2, List.getD_eq_getElem _ _ h2]

theorem overlayBuf_take_self (b : List Nat) (n : Nat) : overlayBuf b (b.take n) = b := by
  apply List.ext_getElem
  · simp [overlayBuf]
  · intro k h1 h2
    simp only [overlayBuf, List.getElem_map, List.getElem_range]
    split
    case isTrue h =>
      rw [List.getD_eq_getElem _ _ (by simpa using h)]
      simp [List.getElem_take]
    case isFalse h =>
      rw [List.getD_eq_getElem _ _ h2]

/-- A `strcpy` of the string `cs` into a buffer leaves exactly `cs` as
the buffer's C string. -/
theorem cstr_overlay {buf cs : List Nat} (hz : ∀ x ∈ cs, x ≠ 0)
    (hlen : cs.length + 1 ≤ buf.length) :
    cstrOf (overlayBuf buf (cs ++ [0])) = cs := by
  have hov : overlayBuf buf (cs ++ [0]) = cs ++ 0 :: buf.drop (cs.length + 1) := by
    apply List.ext_getElem
    · simp [overlayBuf]
      omega
    · intro k h1 h2
      simp only [overlayBuf, List.getElem_map, List.getElem_range]
      by_cases hk : k < cs.length
      · rw [if_pos (by simp; omega)]
        rw [List.getD_eq_getElem _ _ (by simp; omega)]
        rw [List.getElem_append_left (by omega), List.getElem_append_left hk]
      · by_cases hk1 : k = cs.length
        · subst hk1
          rw [if_pos (by simp)]
          rw [List.getD_eq_getElem _ _ (by simp)]
          rw [List.getElem_append_right (by omega), List.getElem_append_right (by omega)]
          simp
        · rw [if_neg (by simp; omega)]
          rw [List.getD_eq_getElem _ _ (by simp [overlayBuf] at h1; omega)]
          rw [List.getElem_append_right (by omega)]
          simp only [List.getElem_cons]
          rw [dif_neg (by omega)]
          rw [List.getElem_drop]
          congr 1
          omega
  rw [hov]
  exact cstr_of_append hz

/-- Digits produced by the size/checksum loops are ASCII octal digits,
never NUL. -/
theorem octalField_ne_zero {n len x : Nat} (h : x ∈ octalField n len) : x ≠ 0 := by
  unfold octalField at h
  rw [List.mem_map] at h
  obtain ⟨j, -, rfl⟩ := h
  omega

theorem octalField_length (n len : Nat) : (octalField n len).length = len := by
  simp [octalField]

/-- The octal digit loop of `atoi` inverts the digit rendering of
`flush_fs`. -/
theorem atoiLoopOct_octalField :
    ∀ (len n : Nat) (acc : Int), n < 8 ^ len →
      atoiLoopOct (octalField n len) acc = acc * 8 ^ len + n := by
  intro len
  induction len with
  | zero =>
      intro n acc h
      interval_cases n
      simp [octalField, atoiLoopOct]
  | succ len ih =>
      intro n acc h
      have hq : n / 8 ^ len < 8 := by
        rw [Nat.div_lt_iff_lt_mul (Nat.pos_pow_of_pos len (by norm_num))]
        rw [pow_succ] at h
        omega
      have hfield : octalField n (len + 1) =
          (n / 8 ^ len % 8 + 48) :: octalField (n % 8 ^ len) len := by
        unfold octalField
        rw [List.range_succ_eq_map]
        simp only [List.map_cons, List.map_map]
        have key : ∀ t, t < len → n % 8 ^ len / 8 ^ t % 8 = n / 8 ^ t % 8 := by
          intro t ht
          have hsplit : 8 ^ len = 8 ^ t * 8 ^ (len - t) := by
            rw [← pow_add]
            congr 1
            omega
          rw [hsplit, Nat.mod_mul_right_div_self]
          rw [Nat.mod_mod_of_dvd _ (dvd_pow_self 8 (by omega))]
        congr 1
        apply List.map_congr_left
        intro j hj
        simp only [List.mem_range] at hj
        simp only [Function.comp_apply]
        rw [show len + 1 - 1 - (j + 1) = len - 1 - j from by omega]
        rw [key (len - 1 - j) (by omega)]
      rw [hfield]
      unfold atoiLoopOct
      rw [if_pos (by omega)]
      rw [ih (n % 8 ^ len) _ (Nat.mod_lt _ (Nat.pos_pow_of_pos len (by norm_num)))]
      have hm : n / 8 ^ len % 8 = n / 8 ^ len := Nat.mod_eq_of_lt hq
      rw [hm]
      have hqr : (8 : Int) ^ len * ((n / 8 ^ len : Nat) : Int) + ((n % 8 ^ len : Nat) : Int)
          = (n : Int) := by
        exact_mod_cast Nat.div_add_mod n (8 ^ len)
      have h8 : (8 : Int) ^ (len + 1) = 8 ^ len * 8 := by ring
      rw [h8, Nat.cast_add]
      linear_combination hqr

/-- `atoi` on `"0o"` followed by the 12-digit octal rendering of `n`
recovers `n`. -/
theorem atoi_oct12 (n : Nat) (h : n < 8 ^ 12) :
    atoi (48 :: 111 :: octalField n 12) = (n : Int) := by
  unfold atoi
  have hskip : atoiSkip (48 :: 111 :: octalField n 12) = 111 :: octalField n 12 := by
    unfold atoiSkip
    rw [List.dropWhile_cons_of_pos (by norm_num)]
    rw [List.dropWhile_cons_of_neg (by norm_num)]
  rw [hskip]
  have hd : atoiDispatch (111 :: octalField n 12) = atoiLoopOct (octalField n 12) 0 := rfl
  show atoiDispatch (111 :: octalField n 12) = (n : Int)
  rw [hd, atoiLoopOct_octalField 12 n 0 h]
  simp

/-! ### The archive round-trip (claim C5) -/

/-- A `writeBytes` write covers position `i`. -/
theorem writeBytes_hit {d : Disk} {off : Nat} {bs : List Nat} {i : Nat}
    (h1 : off ≤ i) (h2 : i - off < bs.length) (h3 : i < DISK_MAX_SIZE) :
    writeBytes d off bs i = bs.getD (i - off) 0 := if_pos ⟨h1, h2, h3⟩

/-- A `writeBytes` write lies entirely above position `i`. -/
theorem writeBytes_miss_lo {d : Disk} {off : Nat} {bs : List Nat} {i : Nat}
    (h : i < off) : writeBytes d off bs i = d i :=
  if_neg (by intro hc; omega)

/-- A `writeBytes` write ends at or before position `i`. -/
theorem writeBytes_miss_len {d : Disk} {off : Nat} {bs : List Nat} {i : Nat}
    (h : bs.length ≤ i - off) : writeBytes d off bs i = d i :=
  if_neg (by intro hc; omega)

/-- Bytes of the serialized header in the name region. -/
theorem flushFile_name_byte (d : Disk) (off : Nat) (f : FileSlot) (k : Nat)
    (hk : k < 100) (hname : (cstrOf f.name).length ≤ 99)
    (hdisk : off + 512 ≤ DISK_MAX_SIZE) :
    flushFile d off f (off + k) = (strBytes f.name).getD k 0 := by
  have hsb : (strBytes f.name).length = (cstrOf f.name).length + 1 := by
    simp [strBytes]
  by_cases hc : k < (strBytes f.name).length
  · simp only [flushFile]
    simp (disch := first
        | omega
        | (simp only [octalField_length, List.length_take, List.length_replicate,
            List.length_cons, List.length_nil, List.length_append]; omega)) only
      [writeBytes_hit, writeBytes_miss_lo, writeBytes_miss_len, Nat.add_sub_cancel_left]
  · simp only [flushFile]
    simp (disch := (try simp only [octalField_length, List.length_take, List.length_replicate,
            List.length_cons, List.length_nil, List.length_append]); omega) only
      [writeBytes_hit, writeBytes_miss_lo, writeBytes_miss_len, Nat.add_sub_cancel_left]
    have h1 : (List.replicate 512 (0:Nat)).getD k 0 = 0 := by
      rw [List.getD_eq_getElem _ _ (by rw [List.length_replicate]; omega)]
      simp only [List.getElem_replicate]
    have h2 : (strBytes f.name).getD k 0 = 0 := List.getD_eq_default _ _ (by omega)
    rw [h1, h2]


/-- `readBytes` collection with an explicit length. -/
theorem readBytes_eq_of_len {d : Disk} {off n : Nat} {L : List Nat}
    (hlen : L.length = n) (h : ∀ k, k < n → d (off + k) = L.getD k 0) :
    readBytes d off n = L := by
  subst hlen
  exact readBytes_eq_of_getD h

/-- Bytes of the serialized header in the magic field. -/
theorem flushFile_ustar_byte (d : Disk) (off : Nat) (f : FileSlot) (k : Nat)
    (hk : k < 6) (hdisk : off + 512 ≤ DISK_MAX_SIZE) :
    flushFile d off f (off + 257 + k) = (strBytes ustarBytes).getD k 0 := by
  have hu6 : (strBytes ustarBytes).length = 6 := by decide
  simp only [flushFile]
  simp (disch := first
      | omega
      | (simp only [octalField_length, List.length_take, List.length_replicate,
          List.length_cons, List.length_nil, List.length_append]; omega)) only
    [writeBytes_hit, writeBytes_miss_lo, writeBytes_miss_len, Nat.add_sub_cancel_left]

/-- Bytes of the serialized header in the version field. -/
theorem flushFile_version_byte (d : Disk) (off : Nat) (f : FileSlot) (k : Nat)
    (hk : k < 2) (hdisk : off + 512 ≤ DISK_MAX_SIZE) :
    flushFile d off f (off + 263 + k) = 48 := by
  have hv3 : (strBytes versionBytes).length = 3 := by decide
  simp only [flushFile]
  simp (disch := first
      | omega
      | (simp only [octalField_length, List.length_take, List.length_replicate,
          List.length_cons, List.length_nil, List.length_append]; omega)) only
    [writeBytes_hit, writeBytes_miss_lo, writeBytes_miss_len, Nat.add_sub_cancel_left]
  interval_cases k <;> decide

/-- Bytes of the serialized header in the size field. -/
theorem flushFile_size_byte (d : Disk) (off : Nat) (f : FileSlot) (k : Nat)
    (hk : k < 12) (hdisk : off + 512 ≤ DISK_MAX_SIZE) :
    flushFile d off f (off + 124 + k) = (octalField f.size 12).getD k 0 := by
  simp only [flushFile]
  simp (disch := first
      | omega
      | (simp only [octalField_length, List.length_take, List.length_replicate,
          List.length_cons, List.length_nil, List.length_append]; omega)) only
    [writeBytes_hit, writeBytes_miss_lo, writeBytes_miss_len, Nat.add_sub_cancel_left]

/-- The first `mtime` byte of a serialized header is NUL. -/
theorem flushFile_mtime_byte (d : Disk) (off : Nat) (f : FileSlot)
    (hname : (cstrOf f.name).length ≤ 99) (hdisk : off + 512 ≤ DISK_MAX_SIZE) :
    flushFile d off f (off + 136) = 0 := by
  have hsb : (strBytes f.name).length = (cstrOf f.name).length + 1 := by
    simp [strBytes]
  have hm7 : (strBytes modeBytes).length = 7 := by decide
  simp only [flushFile]
  simp (disch := first
      | omega
      | (simp only [octalField_length, List.length_take, List.length_replicate,
          List.length_cons, List.length_nil, List.length_append]; omega)) only
    [writeBytes_hit, writeBytes_miss_lo, writeBytes_miss_len, Nat.add_sub_cancel_left]
  rw [List.getD_eq_getElem _ _ (by rw [List.length_replicate]; omega)]
  simp only [List.getElem_replicate]

/-- Bytes of the serialized data area. -/
theorem flushFile_data_byte (d : Disk) (off : Nat) (f : FileSlot) (k : Nat)
    (hk : k < f.size) (hdata : f.data.length = 1024) (hsz : f.size ≤ 1024)
    (hdisk : off + 512 + f.size ≤ DISK_MAX_SIZE) :
    flushFile d off f (off + 512 + k) = (f.data.take f.size).getD k 0 := by
  simp only [flushFile]
  simp (disch := first
      | omega
      | (simp only [octalField_length, List.length_take, List.length_replicate,
          List.length_cons, List.length_nil, List.length_append]; omega)) only
    [writeBytes_hit, writeBytes_miss_lo, writeBytes_miss_len, Nat.add_sub_cancel_left]

/-- `flushFile` does not touch the disk below its offset. -/
theorem flushFile_frame_below (d : Disk) (off : Nat) (f : FileSlot) (i : Nat)
    (hi : i < off) : flushFile d off f i = d i := by
  simp only [flushFile]
  simp (disch := omega) only [writeBytes_miss_lo]

/-- `flushFile` does not touch the disk at or beyond the end of its data
area. -/
theorem flushFile_frame_above (d : Disk) (off : Nat) (f : FileSlot) (i : Nat)
    (hname : (cstrOf f.name).length ≤ 99) (hdata : f.data.length = 1024)
    (hsz : f.size ≤ 1024) (hi : off + 512 + f.size ≤ i) :
    flushFile d off f i = d i := by
  have hsb : (strBytes f.name).length = (cstrOf f.name).length + 1 := by
    simp [strBytes]
  have hm7 : (strBytes modeBytes).length = 7 := by decide
  have hu6 : (strBytes ustarBytes).length = 6 := by decide
  have hv3 : (strBytes versionBytes).length = 3 := by decide
  simp only [flushFile]
  simp (disch := first
      | omega
      | (simp only [octalField_length, List.length_take, List.length_replicate,
          List.length_cons, List.length_nil, List.length_append]; omega)) only
    [writeBytes_miss_lo, writeBytes_miss_len]


/-- The C string read back from the name field of a serialized header is
the file's name string. -/
theorem flushFile_name_cstr (d : Disk) (off : Nat) (f : FileSlot)
    (hname : (cstrOf f.name).length ≤ 99) (hdisk : off + 512 ≤ DISK_MAX_SIZE) :
    cstrOf (readBytes (flushFile d off f) off 100) = cstrOf f.name := by
  have hsb : (strBytes f.name).length = (cstrOf f.name).length + 1 := by
    simp [strBytes]
  have h100 : (100 : Nat) = ((cstrOf f.name).length + 1) + (99 - (cstrOf f.name).length) := by
    omega
  rw [h100, readBytes_split]
  have hp1 : readBytes (flushFile d off f) off ((cstrOf f.name).length + 1) =
      strBytes f.name := by
    apply readBytes_eq_of_len hsb
    intro k hk
    exact flushFile_name_byte d off f k (by omega) hname hdisk
  rw [hp1]
  simp only [strBytes, List.append_assoc, List.cons_append, List.nil_append]
  exact cstr_of_append fun x hx => cstrOf_ne_zero hx

/-- The first byte of a serialized header for a file with a nonempty
name is not NUL. -/
theorem flushFile_byte0 (d : Disk) (off : Nat) (f : FileSlot)
    (hname : (cstrOf f.name).length ≤ 99) (hdisk : off + 512 ≤ DISK_MAX_SIZE)
    (hne : cstrOf f.name ≠ []) : flushFile d off f off ≠ 0 := by
  have h := flushFile_name_byte d off f 0 (by omega) hname hdisk
  rw [Nat.add_zero] at h
  rw [h]
  have hlen : 0 < (cstrOf f.name).length := List.length_pos.mpr hne
  rw [List.getD_eq_getElem _ _ (by
    simp only [strBytes, List.length_append, List.length_cons, List.length_nil]
    omega)]
  simp only [strBytes]
  rw [List.getElem_append_left (by omega)]
  exact cstrOf_ne_zero (List.getElem_mem _)

/-- The first byte of a serialized header for a file with an empty name
is NUL. -/
theorem flushFile_byte0_empty (d : Disk) (off : Nat) (f : FileSlot)
    (hname : (cstrOf f.name).length ≤ 99) (hdisk : off + 512 ≤ DISK_MAX_SIZE)
    (he : cstrOf f.name = []) : flushFile d off f off = 0 := by
  have h := flushFile_name_byte d off f 0 (by omega) hname hdisk
  rw [Nat.add_zero] at h
  rw [h]
  simp [strBytes, he]

/-- The magic window of a serialized header reads back as
`"ustar\0" ++ "00"`. -/
theorem flushFile_magic (d : Disk) (off : Nat) (f : FileSlot)
    (hdisk : off + 512 ≤ DISK_MAX_SIZE) :
    readBytes (flushFile d off f) (off + 257) 8 =
      [117, 115, 116, 97, 114, 0, 48, 48] := by
  rw [show (8 : Nat) = 6 + 2 from rfl, readBytes_split]
  have hp1 : readBytes (flushFile d off f) (off + 257) 6 = [117, 115, 116, 97, 114, 0] := by
    apply readBytes_eq_of_len (by decide)
    intro k hk
    rw [flushFile_ustar_byte d off f k hk hdisk]
    interval_cases k <;> decide
  have hp2 : readBytes (flushFile d off f) (off + 257 + 6) 2 = [48, 48] := by
    apply readBytes_eq_of_len (by decide)
    intro k hk
    rw [show off + 257 + 6 + k = off + 263 + k from by omega]
    rw [flushFile_version_byte d off f k hk hdisk]
    interval_cases k <;> decide
  rw [hp1, hp2]
  rfl

/-- The C string read back from the size field of a serialized header is
the 12-digit octal rendering of the file's size. -/
theorem flushFile_size_cstr (d : Disk) (off : Nat) (f : FileSlot)
    (hname : (cstrOf f.name).length ≤ 99) (hdisk : off + 512 ≤ DISK_MAX_SIZE) :
    cstrOf (readBytes (flushFile d off f) (off + 124) 388) = octalField f.size 12 := by
  rw [show (388 : Nat) = 12 + (1 + 375) from rfl, readBytes_split, readBytes_split,
    readBytes_one]
  have hp1 : readBytes (flushFile d off f) (off + 124) 12 = octalField f.size 12 := by
    apply readBytes_eq_of_len (octalField_length f.size 12)
    intro k hk
    exact flushFile_size_byte d off f k hk hdisk
  have hp2 : flushFile d off f (off + 124 + 12) = 0 := by
    rw [show off + 124 + 12 = off + 136 from by omega]
    exact flushFile_mtime_byte d off f hname hdisk
  rw [hp1, hp2]
  simp only [List.cons_append, List.nil_append]
  exact cstr_of_append fun x hx => octalField_ne_zero hx

/-- The data area of a serialized header reads back as the file's first
`size` data bytes. -/
theorem flushFile_data_read (d : Disk) (off : Nat) (f : FileSlot)
    (hdata : f.data.length = 1024) (hsz : f.size ≤ 1024)
    (hdisk : off + 512 + f.size ≤ DISK_MAX_SIZE) :
    readBytes (flushFile d off f) (off + 512) f.size = f.data.take f.size := by
  apply readBytes_eq_of_len (by rw [List.length_take]; omega)
  intro k hk
  exact flushFile_data_byte d off f k hk hdata hsz hdisk

/-- A nonnegative `int32` value below `2^32` converts to `size_t`
unchanged. -/
theorem sizeTofInt32_coe (n : Nat) (h : n < 2 ^ 32) : sizeTofInt32 (n : Int) = n := by
  unfold sizeTofInt32
  rw [Int.emod_eq_of_lt (by positivity) (by exact_mod_cast h)]
  simp

/-- Parsing a header serialized by `flush_fs` for a file with a nonempty
name recovers the file's (name, size, data) content. -/
theorem parseHeader_flushFile (d : Disk) (off : Nat) (f : FileSlot)
    (hwf : wfSlot f) (hne : cstrOf f.name ≠ [])
    (hdisk : off + 512 + f.size ≤ DISK_MAX_SIZE) :
    parseHeader (flushFile d off f) off =
      some { name := cstrOf f.name, size := (f.size : Int), data := f.data.take f.size } := by
  obtain ⟨hnl, hdl, hcl, hsz⟩ := hwf
  have hdisk0 : off + 512 ≤ DISK_MAX_SIZE := by omega
  simp only [parseHeader]
  rw [if_neg (flushFile_byte0 d off f hcl hdisk0 hne)]
  rw [flushFile_magic d off f hdisk0]
  rw [if_neg (by decide)]
  rw [flushFile_size_cstr d off f hcl hdisk0]
  have hatoi : atoi (48 :: 111 :: octalField f.size 12) = (f.size : Int) :=
    atoi_oct12 f.size (lt_of_le_of_lt hsz (by norm_num))
  rw [hatoi]
  rw [flushFile_name_cstr d off f hcl hdisk0]
  rw [sizeTofInt32_coe f.size (by omega)]
  rw [flushFile_data_read d off f hdl hsz hdisk]


/-- `parseHeader` only reads the 512-byte header and the data area of
the accepted entry: two disks that agree there parse alike. -/
theorem parseHeader_agree {d1 d2 : Disk} {off B : Nat} {e : TarEntry}
    (hagree : ∀ i, off ≤ i → i < off + 512 + B → d1 i = d2 i)
    (hp : parseHeader d2 off = some e) (hB : sizeTofInt32 e.size ≤ B) :
    parseHeader d1 off = some e := by
  have h0 : d1 off = d2 off := hagree off le_rfl (by omega)
  have hm : readBytes d1 (off + 257) 8 = readBytes d2 (off + 257) 8 :=
    readBytes_congr fun k hk => hagree _ (by omega) (by omega)
  have hs : readBytes d1 (off + 124) 388 = readBytes d2 (off + 124) 388 :=
    readBytes_congr fun k hk => hagree _ (by omega) (by omega)
  simp only [parseHeader] at hp ⊢
  rw [h0, hm, hs]
  split_ifs at hp with c1 c2
  rw [if_neg c1, if_neg c2]
  have hsize : e.size = atoi (48 :: 111 :: cstrOf (readBytes d2 (off + 124) 388)) := by
    have h := Option.some.inj hp
    rw [← h]
  have hd : readBytes d1 (off + 512)
        (sizeTofInt32 (atoi (48 :: 111 :: cstrOf (readBytes d2 (off + 124) 388)))) =
      readBytes d2 (off + 512)
        (sizeTofInt32 (atoi (48 :: 111 :: cstrOf (readBytes d2 (off + 124) 388)))) := by
    apply readBytes_congr
    intro k hk
    apply hagree _ (by omega)
    rw [← hsize] at hk
    omega
  have hn : readBytes d1 off 100 = readBytes d2 off 100 :=
    readBytes_congr fun k hk => hagree _ (by omega) (by omega)
  rw [hd, hn]
  exact hp

/-- Re-loading a slot from its own parsed content restores the slot up
to the name-buffer overlay. -/
theorem applyEntry_self_slot (files : FileTable) (i : Fin FILES_MAX) (f : FileSlot)
    (hfi : files i = f) (hwf : wfSlot f) :
    (applyEntry files i
        { name := cstrOf f.name, size := (f.size : Int)
          data := f.data.take f.size }) i =
      { in_use := true, name := overlayBuf f.name (cstrOf f.name ++ [0])
        data := f.data, size := f.size } := by
  obtain ⟨hnl, hdl, hcl, hsz⟩ := hwf
  simp only [applyEntry, Function.update_same, hfi]
  rw [sizeTofInt32_coe _ (by omega)]
  rw [overlayBuf_take_self]
  simp only [strBytes, cstrOf_idem]

/-- The tuple of a reloaded slot equals the original slot's tuple. -/
theorem applyEntry_slot_tuple (files : FileTable) (i : Fin FILES_MAX) (f : FileSlot)
    (hfi : files i = f) (hwf : wfSlot f) :
    tupleOf ((applyEntry files i
        { name := cstrOf f.name, size := (f.size : Int)
          data := f.data.take f.size }) i) =
      tupleOf f := by
  obtain ⟨hnl, hdl, hcl, hsz⟩ := hwf
  rw [applyEntry_self_slot files i f hfi ⟨hnl, hdl, hcl, hsz⟩]
  simp only [tupleOf]
  rw [cstr_overlay (fun x hx => cstrOf_ne_zero hx) (by omega)]

/-- A reloaded slot is marked in use. -/
theorem applyEntry_slot_in_use (files : FileTable) (i : Fin FILES_MAX) (f : FileSlot)
    (hfi : files i = f) (hwf : wfSlot f) :
    ((applyEntry files i
        { name := cstrOf f.name, size := (f.size : Int)
          data := f.data.take f.size }) i).in_use = true := by
  rw [applyEntry_self_slot files i f hfi hwf]

/-- `applyEntry` leaves the other slot unchanged. -/
theorem applyEntry_other (files : FileTable) (i j : Fin FILES_MAX) (e : TarEntry)
    (h : j ≠ i) : (applyEntry files i e) j = files j := by
  simp only [applyEntry]
  exact Function.update_noteq h _ _

/-- `align_up` to a sector boundary does not shrink. -/
theorem alignUp_sector_ge (v : Nat) : v ≤ alignUp v SECTOR_SIZE := by
  simp only [alignUp, SECTOR_SIZE]
  omega



/-- `parseHeader` rejects the all-zero disk. -/
theorem parseHeader_zeroDisk (off : Nat) : parseHeader zeroDisk off = none := by
  simp [parseHeader, zeroDisk]

/-- C5 (amended): for every file table whose slots are well formed
(100-byte name buffer holding a NUL-terminated name, 1024-byte data
buffer, size at most 1024), whose in-use slots form an initial prefix of
the slot array, and whose serialized archive fits in `disk[]`
(`DISK_MAX_SIZE` bytes), serializing with `flush_fs` and re-parsing with
`init_fs` reproduces the same (name, size, data bytes) tuples of the
in-use slots in the same order. -/
theorem flush_init_roundtrip (files : FileTable)
    (hwf : ∀ i, wfSlot (files i))
    (hord : (files 1).in_use = true → (files 0).in_use = true)
    (hfit : (flush_fs files).2 ≤ DISK_MAX_SIZE) :
    inUseTuples (init_fs (flush_fs files).1 files) = inUseTuples files := by
  obtain ⟨hnl0, hdl0, hcl0, hsz0⟩ := hwf 0
  obtain ⟨hnl1, hdl1, hcl1, hsz1⟩ := hwf 1
  cases hu0 : (files 0).in_use with
  | false =>
      have hu1 : (files 1).in_use = false := by
        cases hu1 : (files 1).in_use
        · rfl
        · have h := hord hu1
          rw [hu0] at h
          simp at h
      have hflush : flush_fs files = (zeroDisk, 0) := by
        simp [flush_fs, flushStep, hu0, hu1]
      rw [hflush]
      simp [init_fs, parseHeader_zeroDisk]
  | true =>
      have hb0 : 512 + (files 0).size ≤ alignUp (512 + (files 0).size) SECTOR_SIZE :=
        alignUp_sector_ge _
      have hst : sizeTofInt32 (((files 0).size : Nat) : Int) = (files 0).size :=
        sizeTofInt32_coe _ (by omega)
      cases hu1 : (files 1).in_use with
      | false =>
          have hflush : flush_fs files =
              (flushFile zeroDisk 0 (files 0),
                alignUp (512 + (files 0).size) SECTOR_SIZE) := by
            simp [flush_fs, flushStep, hu0, hu1]
          rw [hflush] at hfit ⊢
          have hd0 : 512 + (files 0).size ≤ DISK_MAX_SIZE := le_trans hb0 hfit
          by_cases hne0 : cstrOf (files 0).name = []
          · have hp0 : parseHeader (flushFile zeroDisk 0 (files 0)) 0 = none := by
              simp only [parseHeader]
              rw [if_pos (flushFile_byte0_empty zeroDisk 0 (files 0) hcl0 (by omega) hne0)]
            simp [init_fs, hp0]
          · have hp0 := parseHeader_flushFile zeroDisk 0 (files 0)
              ⟨hnl0, hdl0, hcl0, hsz0⟩ hne0 (by omega)
            have hp1 : parseHeader (flushFile zeroDisk 0 (files 0))
                (alignUp (512 + (files 0).size) SECTOR_SIZE) = none := by
              simp only [parseHeader]
              rw [if_pos]
              rw [flushFile_frame_above zeroDisk 0 (files 0) _ hcl0 hdl0 hsz0 (by omega)]
              rfl
            simp only [init_fs, hp0, hst, hp1]
            have h0u := applyEntry_slot_in_use files 0 (files 0) rfl ⟨hnl0, hdl0, hcl0, hsz0⟩
            have h0t := applyEntry_slot_tuple files 0 (files 0) rfl ⟨hnl0, hdl0, hcl0, hsz0⟩
            have h1e := applyEntry_other files 0 1
              { name := cstrOf (files 0).name, size := ((files 0).size : Int)
                data := (files 0).data.take (files 0).size } (by decide)
            simp [inUseTuples, hu0, hu1, h0u, h0t, h1e]
      | true =>
          have hb1 : 512 + (files 1).size ≤ alignUp (512 + (files 1).size) SECTOR_SIZE :=
            alignUp_sector_ge _
          have hflush : flush_fs files =
              (flushFile (flushFile zeroDisk 0 (files 0))
                  (alignUp (512 + (files 0).size) SECTOR_SIZE) (files 1),
                alignUp (512 + (files 0).size) SECTOR_SIZE +
                  alignUp (512 + (files 1).size) SECTOR_SIZE) := by
            simp [flush_fs, flushStep, hu0, hu1]
          rw [hflush] at hfit ⊢
          have hd1 : alignUp (512 + (files 0).size) SECTOR_SIZE + 512 + (files 1).size ≤
              DISK_MAX_SIZE := by omega
          have hd0 : 512 + (files 0).size ≤ DISK_MAX_SIZE := by omega
          by_cases hne0 : cstrOf (files 0).name = []
          · have hp0 : parseHeader (flushFile (flushFile zeroDisk 0 (files 0))
                (alignUp (512 + (files 0).size) SECTOR_SIZE) (files 1)) 0 = none := by
              simp only [parseHeader]
              rw [if_pos]
              rw [flushFile_frame_below _ _ (files 1) 0 (by omega)]
              exact flushFile_byte0_empty zeroDisk 0 (files 0) hcl0 (by omega) hne0
            simp [init_fs, hp0]
          · have hagree : ∀ i, 0 ≤ i → i < 0 + 512 + (files 0).size →
                flushFile (flushFile zeroDisk 0 (files 0))
                  (alignUp (512 + (files 0).size) SECTOR_SIZE) (files 1) i =
                flushFile zeroDisk 0 (files 0) i := by
              intro i _ hi
              exact flushFile_frame_below _ _ (files 1) i (by omega)
            have hp0d1 := parseHeader_flushFile zeroDisk 0 (files 0)
              ⟨hnl0, hdl0, hcl0, hsz0⟩ hne0 (by omega)
            have hp0 := parseHeader_agree hagree hp0d1 (by rw [hst])
            by_cases hne1 : cstrOf (files 1).name = []
            · have hp1 : parseHeader (flushFile (flushFile zeroDisk 0 (files 0))
                  (alignUp (512 + (files 0).size) SECTOR_SIZE) (files 1))
                  (alignUp (512 + (files 0).size) SECTOR_SIZE) = none := by
                simp only [parseHeader]
                rw [if_pos (flushFile_byte0_empty _ _ (files 1) hcl1 (by omega) hne1)]
              simp only [init_fs, hp0, hst, hp1]
              have h0u := applyEntry_slot_in_use files 0 (files 0) rfl ⟨hnl0, hdl0, hcl0, hsz0⟩
              have h0t := applyEntry_slot_tuple files 0 (files 0) rfl ⟨hnl0, hdl0, hcl0, hsz0⟩
              have h1e := applyEntry_other files 0 1
                { name := cstrOf (files 0).name, size := ((files 0).size : Int)
                  data := (files 0).data.take (files 0).size } (by decide)
              simp [inUseTuples, hu0, hu1, h0u, h0t, h1e]
            · have hp1 := parseHeader_flushFile (flushFile zeroDisk 0 (files 0))
                (alignUp (512 + (files 0).size) SECTOR_SIZE) (files 1)
                ⟨hnl1, hdl1, hcl1, hsz1⟩ hne1 (by omega)
              simp only [init_fs, hp0, hst, hp1]
              have h1e : (applyEntry files 0
                  { name := cstrOf (files 0).name, size := ((files 0).size : Int)
                    data := (files 0).data.take (files 0).size }) 1 = files 1 :=
                applyEntry_other files 0 1 _ (by decide)
              have h0u := applyEntry_slot_in_use files 0 (files 0) rfl ⟨hnl0, hdl0, hcl0, hsz0⟩
              have h0t := applyEntry_slot_tuple files 0 (files 0) rfl ⟨hnl0, hdl0, hcl0, hsz0⟩
              have h1u := applyEntry_slot_in_use _ 1 (files 1) h1e ⟨hnl1, hdl1, hcl1, hsz1⟩
              have h1t := applyEntry_slot_tuple _ 1 (files 1) h1e ⟨hnl1, hdl1, hcl1, hsz1⟩
              have h0e := applyEntry_other (applyEntry files 0
                  { name := cstrOf (files 0).name, size := ((files 0).size : Int)
                    data := (files 0).data.take (files 0).size }) 1 0
                { name := cstrOf (files 1).name, size := ((files 1).size : Int)
                  data := (files 1).data.take (files 1).size } (by decide)
              simp [inUseTuples, hu0, hu1, h0e, h0u, h0t, h1u, h1t]


/-- C5 (counterexample to the claim as stated): the table with slot 0
unused and a well-formed one-byte file `"a"` in slot 1 meets the claim's
provisos (NUL-terminated names, sizes at most 1024), yet `flush_fs`
followed by `init_fs` changes the table's (name, size, data) tuples:
`init_fs` loads the serialized file into slot 0 while never clearing
slot 1, so the file appears twice. -/
theorem flush_init_roundtrip_counterexample :
    (∀ i, wfSlot (gapTable i)) ∧
    inUseTuples (init_fs (flush_fs gapTable).1 gapTable) ≠ inUseTuples gapTable := by
  decide

/-- Witness for `flush_init_roundtrip` at a concrete table: a single
16-byte file `"f"` in slot 0. -/
theorem flush_init_roundtrip_witness :
    (∀ i, wfSlot (tableF i)) ∧ ((tableF 1).in_use = true → (tableF 0).in_use = true) ∧
    (flush_fs tableF).2 ≤ DISK_MAX_SIZE ∧
    inUseTuples (init_fs (flush_fs tableF).1 tableF) = inUseTuples tableF :=
  ⟨by decide, by decide, by decide,
    flush_init_roundtrip tableF (by decide) (by decide) (by decide)⟩

end LocOs
